import Mathlib

/-!
# Verification of the CarX Drift Online save-file container codec

This development gives a shallow embedding, in Lean 4, of the container
codec and repack engine of the CarX Drift Online PS4 save editor
(`src/core/extract.py`, `src/core/repack.py`, `src/core/memory_codec.py`,
`src/core/json_ops.py`, `src/core/model.py`) and proves or refutes the
specified properties of those operations.

Modelling conventions:
* Python `bytes` / `bytearray` values are `List Nat` (each element a byte
  value `< 256`; arithmetic that can overflow a byte is reduced `% 256`
  explicitly).
* Python `str` values are lists of Unicode code points (`List Nat`);
  this allows faithfully modelling UTF-16 surrogate handling, which
  Lean's `Char` cannot represent.
* Functions that can raise exceptions return `Option`/`Except`.
* The filesystem of an extraction directory is an association list from
  file names (as ASCII byte lists) to file contents; a lookup returns the
  first matching entry, and the extractor is proved to never produce
  duplicate names.
* Library primitives used by the source (`hashlib.sha1`, `base64`,
  `zlib`/`gzip`, `json`, text codecs) are implemented concretely below.
  SHA-1 and CRC-32 are the real algorithms.  The DEFLATE layer inside
  gzip is modelled with RFC 1951 *stored* (uncompressed) blocks: the
  model's `gzip_compress` emits stored blocks and the model's inflate
  understands exactly those; inputs whose deflate stream uses Huffman
  blocks are outside the model and treated as a decompression failure.
  The JSON model restricts numbers to integers; text that needs float
  parsing is treated as a JSON parse failure (the source falls back to
  keeping the text unchanged in that case).
-/

set_option maxRecDepth 10000

namespace CarxSave

/-- Byte strings: each element is a byte value. -/
abbrev Bytes := List Nat

/-- Python strings, as lists of Unicode code points. -/
abbrev PyStr := List Nat

/-- `data[a:b]` for nonnegative indices, with Python's clamping semantics. -/
def pySlice (data : Bytes) (a b : Nat) : Bytes :=
  (data.take b).drop a

/-- `buf[a:b] = v` on a `bytearray`, with Python's clamping/insertion
semantics: the (clamped) slice is removed and `v` spliced in its place. -/
def setSlice (buf : Bytes) (a b : Nat) (v : Bytes) : Bytes :=
  let a' := min a buf.length
  let b' := min (max b a') buf.length
  buf.take a' ++ v ++ buf.drop b'

/-- ASCII code points / bytes of a Lean string literal (used for the
fixed ASCII constants appearing in the source). -/
def asciiOf (s : String) : List Nat :=
  s.data.map Char.toNat

/-- Little-endian byte encoding of `n` in `k` bytes (`struct.pack("<I", ·)`
is `u32le`). -/
def leBytes (k n : Nat) : Bytes :=
  match k with
  | 0 => []
  | k + 1 => n % 256 :: leBytes k (n / 256)

def u32le (n : Nat) : Bytes := leBytes 4 n

def u16le (n : Nat) : Bytes := leBytes 2 n

/-- Little-endian read of `k` bytes starting at offset `off`
(`struct.unpack_from("<I", data, off)`). -/
def readLE (data : Bytes) (off k : Nat) : Nat :=
  (pySlice data off (off + k)).foldr (fun b acc => acc * 256 + b) 0

def readU32le (data : Bytes) (off : Nat) : Nat := readLE data off 4

/-- Decimal digit characters of `n` (ASCII codes), most significant first. -/
def decDigits : Nat → List Nat
  | 0 => [48]
  | n + 1 =>
    let rec go (fuel m : Nat) : List Nat :=
      match fuel with
      | 0 => []
      | fuel + 1 =>
        if m = 0 then []
        else go fuel (m / 10) ++ [48 + m % 10]
    go (n + 1) (n + 1)

/-- `f"{n:02d}"`: decimal, left-padded with `0` to width 2. -/
def pad2 (n : Nat) : List Nat :=
  let d := decDigits n
  List.replicate (2 - d.length) 48 ++ d

/-- Lower-case hex digit character for a value `< 16`. -/
def hexDigitLower (v : Nat) : Nat :=
  if v < 10 then 48 + v else 87 + v

/-- Upper-case hex digit character for a value `< 16`. -/
def hexDigitUpper (v : Nat) : Nat :=
  if v < 10 then 48 + v else 55 + v

/-- Hex digit characters of `n` (upper case), most significant first. -/
def hexDigits : Nat → List Nat
  | 0 => [48]
  | n + 1 =>
    let rec go (fuel m : Nat) : List Nat :=
      match fuel with
      | 0 => []
      | fuel + 1 =>
        if m = 0 then []
        else go fuel (m / 16) ++ [hexDigitUpper (m % 16)]
    go (n + 1) (n + 1)

/-- `f"{n:08X}"`: upper-case hex, left-padded with `0` to width 8. -/
def hex8 (n : Nat) : List Nat :=
  let d := hexDigits n
  List.replicate (8 - d.length) 48 ++ d

/-! ## SHA-1 (`hashlib.sha1`)

The real SHA-1 algorithm over byte lists, with the usual lower-case hex
digest. -/

/-- 32-bit truncation. -/
def m32 (n : Nat) : Nat := n % 4294967296

/-- 32-bit left rotation of a value `< 2^32`. -/
def rotl32 (n s : Nat) : Nat :=
  m32 (n * 2 ^ s + n / 2 ^ (32 - s))

/-- Big-endian 4-byte encoding of a 32-bit value. -/
def u32be (n : Nat) : Bytes :=
  [n / 16777216 % 256, n / 65536 % 256, n / 256 % 256, n % 256]

/-- Big-endian read of 4 bytes. -/
def readU32be (b : Bytes) : Nat :=
  b.foldl (fun acc x => acc * 256 + x) 0

/-- SHA-1 message padding: append `0x80`, zero bytes to 56 mod 64, then the
bit length as a 64-bit big-endian integer. -/
def sha1Pad (msg : Bytes) : Bytes :=
  let l := msg.length
  let padZeros := (55 + 64 - l % 64) % 64
  let bitLen := l * 8
  msg ++ [128] ++ List.replicate padZeros 0 ++
    [bitLen / 2 ^ 56 % 256, bitLen / 2 ^ 48 % 256, bitLen / 2 ^ 40 % 256,
     bitLen / 2 ^ 32 % 256, bitLen / 2 ^ 24 % 256, bitLen / 2 ^ 16 % 256,
     bitLen / 2 ^ 8 % 256, bitLen % 256]

/-- Split a list into chunks of 64, fuel-driven so that it reduces in the
kernel. -/
def chunks64 (fuel : Nat) (l : Bytes) : List Bytes :=
  match fuel with
  | 0 => []
  | fuel + 1 =>
    match l with
    | [] => []
    | _ => l.take 64 :: chunks64 fuel (l.drop 64)

/-- Message schedule for one chunk: 80 32-bit words. -/
def sha1Schedule (chunk : Bytes) : List Nat :=
  let w0 := (List.range 16).map fun i => readU32be (pySlice chunk (4 * i) (4 * i + 4))
  (List.range 80).foldl
    (fun w t =>
      if t < 16 then w
      else
        let x := Nat.xor (Nat.xor (w.getD (t - 3) 0) (w.getD (t - 8) 0))
                  (Nat.xor (w.getD (t - 14) 0) (w.getD (t - 16) 0))
        w ++ [rotl32 x 1])
    w0

/-- One SHA-1 compression round. -/
def sha1Round (t : Nat) (w : List Nat) (st : Nat × Nat × Nat × Nat × Nat) :
    Nat × Nat × Nat × Nat × Nat :=
  let (a, b, c, d, e) := st
  let f :=
    if t < 20 then Nat.lor (Nat.land b c) (Nat.land (4294967295 - b) d)
    else if t < 40 then Nat.xor (Nat.xor b c) d
    else if t < 60 then Nat.lor (Nat.lor (Nat.land b c) (Nat.land b d)) (Nat.land c d)
    else Nat.xor (Nat.xor b c) d
  let k :=
    if t < 20 then 1518500249
    else if t < 40 then 1859775393
    else if t < 60 then 2400959708
    else 3395469782
  let temp := m32 (rotl32 a 5 + f + e + k + w.getD t 0)
  (temp, a, rotl32 b 30, c, d)

/-- Process one 64-byte chunk. -/
def sha1Chunk (h : Nat × Nat × Nat × Nat × Nat) (chunk : Bytes) :
    Nat × Nat × Nat × Nat × Nat :=
  let w := sha1Schedule chunk
  let (a, b, c, d, e) := (List.range 80).foldl (fun st t => sha1Round t w st) h
  let (h0, h1, h2, h3, h4) := h
  (m32 (h0 + a), m32 (h1 + b), m32 (h2 + c), m32 (h3 + d), m32 (h4 + e))

/-- SHA-1 digest (20 bytes). -/
def sha1 (msg : Bytes) : Bytes :=
  let padded := sha1Pad msg
  let hs :=
    (chunks64 (padded.length + 1) padded).foldl sha1Chunk
      (1732584193, 4023233417, 2562383102, 271733878, 3285377520)
  u32be hs.1 ++ u32be hs.2.1 ++ u32be hs.2.2.1 ++ u32be hs.2.2.2.1 ++ u32be hs.2.2.2.2

/-- Lower-case hex characters of a byte list (`.hexdigest()`), as ASCII
code points. -/
def hexdigest (b : Bytes) : List Nat :=
  b.flatMap fun v => [hexDigitLower (v / 16 % 16), hexDigitLower (v % 16)]

/-- `hashlib.sha1(b).hexdigest()` (`_sha1_bytes` in both `extract.py` and
`repack.py`). -/
def sha1Hex (b : Bytes) : List Nat :=
  hexdigest (sha1 b)

/-! ## CRC-32 and gzip (`src/core/memory_codec.py`)

`gzip_compress` / `gunzip` wrap Python's `gzip`/`zlib`.  The gzip container
(header with mtime, deflate body, CRC-32/ISIZE trailer) is modelled exactly;
the deflate body uses RFC 1951 stored blocks (see the file header). -/

/-- One step of the reflected CRC-32 (polynomial `0xEDB88320`). -/
def crc32Byte (c b : Nat) : Nat :=
  (List.range 8).foldl
    (fun c _ => if c % 2 = 1 then Nat.xor (c / 2) 3988292384 else c / 2)
    (Nat.xor c b)

/-- CRC-32 checksum as used by the gzip trailer (`zlib.crc32`). -/
def crc32 (data : Bytes) : Nat :=
  Nat.xor (data.foldl crc32Byte 4294967295) 4294967295

/-- Encode a payload as a sequence of RFC 1951 stored blocks (each at most
65535 bytes, the last one marked final). -/
def deflateGo (fuel : Nat) (l : Bytes) : Bytes :=
  match fuel with
  | 0 => []
  | fuel + 1 =>
    if l.length ≤ 65535 then
      1 :: (u16le l.length ++ u16le (65535 - l.length) ++ l)
    else
      0 :: (u16le 65535 ++ u16le 0 ++ l.take 65535 ++ deflateGo fuel (l.drop 65535))

def deflateStored (p : Bytes) : Bytes := deflateGo (p.length + 1) p

/-- Result of inflating a deflate stream: hard error, partial output from a
truncated stream (zlib returns what it has without raising), or a finished
stream together with the unconsumed trailing bytes. -/
inductive InflRes where
  | err : InflRes
  | part : Bytes → InflRes
  | done : Bytes → Bytes → InflRes
deriving DecidableEq, Repr

/-- Inflate a deflate stream consisting of stored blocks.  Huffman block
types are outside the model and reported as `err`. -/
def inflateStored : Nat → Bytes → InflRes
  | 0, _ => .err
  | _ + 1, [] => .part []
  | fuel + 1, b :: lo :: hi :: nlo :: nhi :: body =>
    if b / 2 % 4 = 0 then
      if nlo + 256 * nhi ≠ 65535 - (lo + 256 * hi) then .err
      else if body.length < lo + 256 * hi then .part body
      else if b % 2 = 1 then
        .done (body.take (lo + 256 * hi)) (body.drop (lo + 256 * hi))
      else
        match inflateStored fuel (body.drop (lo + 256 * hi)) with
        | .err => .err
        | .part o => .part (body.take (lo + 256 * hi) ++ o)
        | .done o r => .done (body.take (lo + 256 * hi) ++ o) r
    else .err
  | _ + 1, b :: _ => if b / 2 % 4 = 0 then .part [] else .err

/-- `gzip_compress(payload, mtime, level)`: gzip stream with the
caller-supplied mtime field.  (`XFL` is `2` for level 9 as written by
Python's `GzipFile`; the OS byte is `255`.) -/
def gzip_compress (payload : Bytes) (mtime : Nat) (level : Nat := 9) : Bytes :=
  let xfl := if level = 9 then 2 else if level = 1 then 4 else 0
  [31, 139, 8, 0] ++ u32le mtime ++ [xfl, 255] ++
    deflateStored payload ++ u32le (crc32 payload) ++ u32le payload.length

/-- `gunzip(gz)`: decompress the first gzip member, ignoring trailing junk
bytes (`zlib.decompressobj(wbits=16+MAX_WBITS)`; `unused_data` is dropped).
A truncated stream yields the partial output without an error, mirroring
`decompressobj.decompress`; a wrong header or trailer check is an error
(`none`). Only `FLG = 0` headers (as produced by `gzip_compress`) are in
the model. -/
def gunzip (gz : Bytes) : Option Bytes :=
  if gz.length < 10 then some []
  else if pySlice gz 0 2 ≠ [31, 139] then none
  else if gz.getD 2 0 ≠ 8 then none
  else if gz.getD 3 0 ≠ 0 then none
  else
    match inflateStored (gz.length + 1) (gz.drop 10) with
    | .err => none
    | .part o => some o
    | .done o r =>
      if 8 ≤ r.length then
        if r.take 8 = u32le (crc32 o) ++ u32le o.length then some o else none
      else some o

/-- `gzip_mtime(gz)`: the little-endian mtime field at bytes 4..8, or 0 when
the gzip magic is absent. -/
def gzip_mtime (gz : Bytes) : Nat :=
  if gz.length < 10 then 0
  else if pySlice gz 0 2 ≠ [31, 139] then 0
  else readU32le gz 4

/-! ## Base64 (`base64.b64decode` / `b64encode`, as used by
`src/core/memory_codec.py`)

`b64decode(s, validate)` in CPython 3.11 forwards to
`binascii.a2b_base64(s, strict_mode=validate)`; the quad/padding state
machine below mirrors that decoder (invalid characters are skipped in
non-strict mode, padding finishes a quad of 2 or 3 data characters, a
dangling quad is an error). -/

/-- Value of a standard-alphabet base64 character. -/
def b64Val (c : Nat) : Option Nat :=
  if 65 ≤ c ∧ c ≤ 90 then some (c - 65)
  else if 97 ≤ c ∧ c ≤ 122 then some (c - 71)
  else if 48 ≤ c ∧ c ≤ 57 then some (c + 4)
  else if c = 43 then some 62
  else if c = 47 then some 63
  else none

def isB64Alpha (c : Nat) : Bool := (b64Val c).isSome

/-- Decode one complete quad of 6-bit values into 3 bytes. -/
def b64DecQuad (a b c d : Nat) : Bytes :=
  [a * 4 + b / 16, b % 16 * 16 + c / 4, c % 4 * 64 + d]

/-- Decode a final partial quad (2 or 3 data characters before padding). -/
def b64DecPartial (quad : List Nat) : Bytes :=
  match quad with
  | [a, b] => [a * 4 + b / 16]
  | [a, b, c] => [a * 4 + b / 16, b % 16 * 16 + c / 4]
  | _ => []

/-- The `a2b_base64` state machine (see section comment). -/
def a2bGo (strict : Bool) (input : List Nat) (out : Bytes) (quad : List Nat)
    (pads : Nat) (padStarted : Bool) : Option Bytes :=
  match input with
  | [] => if quad.length = 0 then some out else none
  | c :: rest =>
    if c = 61 then
      if 2 ≤ quad.length then
        if 4 ≤ quad.length + pads + 1 then
          if strict ∧ rest ≠ [] then none
          else some (out ++ b64DecPartial quad)
        else a2bGo strict rest out quad (pads + 1) true
      else if strict ∧ quad = [] ∧ out = [] then none
      else a2bGo strict rest out quad pads true
    else
      match b64Val c with
      | none => if strict then none else a2bGo strict rest out quad pads padStarted
      | some v =>
        if strict ∧ padStarted then none
        else
          match quad with
          | [a, b, c'] => a2bGo strict rest (out ++ b64DecQuad a b c' v) [] 0 padStarted
          | _ => a2bGo strict rest out (quad ++ [v]) 0 padStarted

/-- `base64.b64decode(s, validate := strict)`; `none` models the raised
`binascii.Error` (`_try_b64_decode` in `memory_codec.py`). -/
def pyB64Decode (strict : Bool) (s : Bytes) : Option Bytes :=
  a2bGo strict s [] [] 0 false

/-- Last index of byte `c` in `s` (`bytes.rfind`), `none` when absent. -/
def rfindByte (s : Bytes) (c : Nat) : Option Nat :=
  (s.reverse.findIdx? (· = c)).map (fun i => s.length - 1 - i)

/-- `_trim_after_padding`: trim to the last plausible padded boundary, trying
ends from `len(s)` down to (exclusive) `max(last_eq + 1, len(s) - 96)`. -/
def trimAfterPadding (s : Bytes) : Option Bytes :=
  match rfindByte s 61 with
  | none => none
  | some lastEq =>
    let lowerExcl := max (lastEq + 1) (s.length - 96)
    let ends := (List.range (s.length - lowerExcl)).map (fun i => s.length - i)
    (ends.find? (fun e => (pyB64Decode true (s.take e)).isSome)).map
      (fun e => s.take e)

/-- `b64_decode_gz`: strict decode, then trim-and-retry, then pad to a
multiple of four and decode non-validating; reject outputs shorter than 10
bytes or without the gzip magic. -/
def b64_decode_gz (s : Bytes) : Option Bytes :=
  let raw0 := pyB64Decode true s
  let raw1 :=
    match raw0 with
    | some r => some r
    | none =>
      match trimAfterPadding s with
      | some t => pyB64Decode true t
      | none => none
  let raw :=
    match raw1 with
    | some r => some r
    | none =>
      let pad := (4 - s.length % 4) % 4
      pyB64Decode false (s ++ List.replicate pad 61)
  match raw with
  | none => none
  | some r =>
    if r.length < 10 then none
    else if pySlice r 0 2 ≠ [31, 139] then none
    else some r

/-- Standard-alphabet base64 character for a 6-bit value. -/
def b64Char (v : Nat) : Nat :=
  if v < 26 then 65 + v
  else if v < 52 then 71 + v
  else if v < 62 then v - 4
  else if v = 62 then 43
  else 47

/-- `base64.b64encode` (`b64_encode` in `memory_codec.py`). -/
def b64EncodeGo (fuel : Nat) (l : Bytes) : Bytes :=
  match fuel with
  | 0 => []
  | fuel + 1 =>
    match l with
    | [] => []
    | [a] => [b64Char (a / 4), b64Char (a % 4 * 16), 61, 61]
    | [a, b] => [b64Char (a / 4), b64Char (a % 4 * 16 + b / 16), b64Char (b % 16 * 4), 61]
    | a :: b :: c :: rest =>
      [b64Char (a / 4), b64Char (a % 4 * 16 + b / 16), b64Char (b % 16 * 4 + c / 64),
       b64Char (c % 64)] ++ b64EncodeGo fuel rest

def b64_encode (gz : Bytes) : Bytes := b64EncodeGo (gz.length + 1) gz

/-! ## Text codecs

UTF-16LE (strict, `errors="ignore"`, and encode) and UTF-8 (strict and
`errors="replace"`), over code-point lists.  The `replace` model emits one
U+FFFD per undecodable byte (Python may merge an invalid multi-byte
prefix into a single U+FFFD; only the last-resort fallback of
`read_text_any` uses this codec). -/

/-- `bytes.decode("utf-16le", errors="ignore")`: malformed units (lone
surrogates, an odd trailing byte) are skipped. -/
def utf16leDecIgnGo (fuel : Nat) (l : Bytes) : PyStr :=
  match fuel with
  | 0 => []
  | fuel + 1 =>
    match l with
    | lo :: hi :: rest =>
      let u := lo % 256 + 256 * (hi % 256)
      if 55296 ≤ u ∧ u ≤ 56319 then
        match rest with
        | lo2 :: hi2 :: rest2 =>
          let u2 := lo2 % 256 + 256 * (hi2 % 256)
          if 56320 ≤ u2 ∧ u2 ≤ 57343 then
            (65536 + (u - 55296) * 1024 + (u2 - 56320)) :: utf16leDecIgnGo fuel rest2
          else utf16leDecIgnGo fuel rest
        | _ => []
      else if 56320 ≤ u ∧ u ≤ 57343 then utf16leDecIgnGo fuel rest
      else u :: utf16leDecIgnGo fuel rest
    | _ => []

def utf16leDecodeIgnore (l : Bytes) : PyStr := utf16leDecIgnGo l.length l

/-- `bytes.decode("utf-16le")` (strict): `none` on a malformed unit. -/
def utf16leDecodeStrict : Bytes → Option PyStr
  | [] => some []
  | [_] => none
  | lo :: hi :: rest =>
    let u := lo % 256 + 256 * (hi % 256)
    if 55296 ≤ u ∧ u ≤ 56319 then
      match rest with
      | lo2 :: hi2 :: rest2 =>
        let u2 := lo2 % 256 + 256 * (hi2 % 256)
        if 56320 ≤ u2 ∧ u2 ≤ 57343 then
          (utf16leDecodeStrict rest2).map
            ((65536 + (u - 55296) * 1024 + (u2 - 56320)) :: ·)
        else none
      | _ => none
    else if 56320 ≤ u ∧ u ≤ 57343 then none
    else (utf16leDecodeStrict rest).map (u :: ·)

/-- `str.encode("utf-16le")`: `none` models the `UnicodeEncodeError` on a
lone surrogate. -/
def utf16leEncode : PyStr → Option Bytes
  | [] => some []
  | c :: rest =>
    if 55296 ≤ c ∧ c ≤ 57343 then none
    else if c < 65536 then (utf16leEncode rest).map ([c % 256, c / 256] ++ ·)
    else if c ≤ 1114111 then
      let v := c - 65536
      let hiS := 55296 + v / 1024
      let loS := 56320 + v % 1024
      (utf16leEncode rest).map ([hiS % 256, hiS / 256, loS % 256, loS / 256] ++ ·)
    else none

/-- `bytes.decode("utf-8")` (strict). -/
def utf8DecodeStrict : Bytes → Option PyStr
  | [] => some []
  | b :: rest =>
    if b < 128 then (utf8DecodeStrict rest).map (b :: ·)
    else if 194 ≤ b ∧ b ≤ 223 then
      match rest with
      | b2 :: rest2 =>
        if 128 ≤ b2 ∧ b2 ≤ 191 then
          (utf8DecodeStrict rest2).map (((b - 192) * 64 + (b2 - 128)) :: ·)
        else none
      | _ => none
    else if 224 ≤ b ∧ b ≤ 239 then
      match rest with
      | b2 :: b3 :: rest2 =>
        let lo2 := if b = 224 then 160 else 128
        let hi2 := if b = 237 then 159 else 191
        if lo2 ≤ b2 ∧ b2 ≤ hi2 ∧ 128 ≤ b3 ∧ b3 ≤ 191 then
          (utf8DecodeStrict rest2).map
            (((b - 224) * 4096 + (b2 - 128) * 64 + (b3 - 128)) :: ·)
        else none
      | _ => none
    else if 240 ≤ b ∧ b ≤ 244 then
      match rest with
      | b2 :: b3 :: b4 :: rest2 =>
        let lo2 := if b = 240 then 144 else 128
        let hi2 := if b = 244 then 143 else 191
        if lo2 ≤ b2 ∧ b2 ≤ hi2 ∧ 128 ≤ b3 ∧ b3 ≤ 191 ∧ 128 ≤ b4 ∧ b4 ≤ 191 then
          (utf8DecodeStrict rest2).map
            (((b - 240) * 262144 + (b2 - 128) * 4096 + (b3 - 128) * 64 + (b4 - 128)) :: ·)
        else none
      | _ => none
    else none

/-- `bytes.decode("utf-8", errors="replace")` (total). -/
def utf8DecRepGo (fuel : Nat) (l : Bytes) : PyStr :=
  match fuel with
  | 0 => []
  | fuel + 1 =>
    match l with
    | [] => []
    | b :: rest =>
      if b < 128 then b :: utf8DecRepGo fuel rest
      else if 194 ≤ b ∧ b ≤ 223 then
        match rest with
        | b2 :: rest2 =>
          if 128 ≤ b2 ∧ b2 ≤ 191 then
            ((b - 192) * 64 + (b2 - 128)) :: utf8DecRepGo fuel rest2
          else 65533 :: utf8DecRepGo fuel rest
        | _ => [65533]
      else if 224 ≤ b ∧ b ≤ 239 then
        match rest with
        | b2 :: b3 :: rest2 =>
          let lo2 := if b = 224 then 160 else 128
          let hi2 := if b = 237 then 159 else 191
          if lo2 ≤ b2 ∧ b2 ≤ hi2 ∧ 128 ≤ b3 ∧ b3 ≤ 191 then
            ((b - 224) * 4096 + (b2 - 128) * 64 + (b3 - 128)) :: utf8DecRepGo fuel rest2
          else 65533 :: utf8DecRepGo fuel rest
        | _ => [65533]
      else if 240 ≤ b ∧ b ≤ 244 then
        match rest with
        | b2 :: b3 :: b4 :: rest2 =>
          let lo2 := if b = 240 then 144 else 128
          let hi2 := if b = 244 then 143 else 191
          if lo2 ≤ b2 ∧ b2 ≤ hi2 ∧ 128 ≤ b3 ∧ b3 ≤ 191 ∧ 128 ≤ b4 ∧ b4 ≤ 191 then
            ((b - 240) * 262144 + (b2 - 128) * 4096 + (b3 - 128) * 64 + (b4 - 128)) ::
              utf8DecRepGo fuel rest2
          else 65533 :: utf8DecRepGo fuel rest
        | _ => [65533]
      else 65533 :: utf8DecRepGo fuel rest

def utf8DecodeReplace (l : Bytes) : PyStr := utf8DecRepGo l.length l

/-! ## Python `str` helpers -/

/-- `str.isspace` for a single code point (the set `str.strip()` removes). -/
def pyIsSpace (c : Nat) : Bool :=
  decide ((9 ≤ c ∧ c ≤ 13) ∨ c = 32 ∨ (28 ≤ c ∧ c ≤ 31) ∨ c = 133 ∨ c = 160 ∨
    c = 5760 ∨ (8192 ≤ c ∧ c ≤ 8202) ∨ c = 8232 ∨ c = 8233 ∨ c = 8239 ∨
    c = 8287 ∨ c = 12288)

/-- `str.strip()`. -/
def pyStrip (s : PyStr) : PyStr :=
  ((s.dropWhile pyIsSpace).reverse.dropWhile pyIsSpace).reverse

/-- `str.rstrip("\x00")`. -/
def pyRstripNul (s : PyStr) : PyStr :=
  (s.reverse.dropWhile (· = 0)).reverse

/-- `str.rfind(c)` for a single code point: last index, or `-1`. -/
def pyRfind (s : PyStr) (c : Nat) : Int :=
  match s.reverse.findIdx? (· = c) with
  | none => -1
  | some i => ((s.length - 1 - i : Nat) : Int)

/-- Does `pat` occur in `data` at index `i`? -/
def matchAt (data pat : Bytes) (i : Nat) : Bool :=
  (data.drop i).take pat.length == pat

/-- `bytes.find(pat, pos)` as an `Option`: least occurrence index `≥ pos`. -/
def findFrom (data pat : Bytes) (pos : Nat) : Option Nat :=
  ((List.range data.length).filter (fun i => pos ≤ i && matchAt data pat i)).head?

/-- `bytes.find(pat)` with Python's `-1`-for-absent convention. -/
def pyFindPat (data pat : Bytes) : Int :=
  match findFrom data pat 0 with
  | none => -1
  | some i => (i : Int)

/-! ## JSON (`json.loads` / `json.dumps`)

Numbers are modelled as integers; input requiring float parsing is a model
boundary and treated as a parse failure (every caller of `json.loads` in
the source catches the failure and keeps the text unchanged).  Object
parsing follows `dict` insertion semantics: a duplicate key keeps its
first position and takes the last value. -/

inductive PyJson where
  | null : PyJson
  | bool : Bool → PyJson
  | int : Int → PyJson
  | str : PyStr → PyJson
  | arr : List PyJson → PyJson
  | obj : List (PyStr × PyJson) → PyJson
deriving Repr

/-- JSON whitespace accepted between tokens by `json.loads`. -/
def jsonWs (c : Nat) : Bool := c == 32 || c == 9 || c == 10 || c == 13

def skipWs (s : PyStr) : PyStr := s.dropWhile jsonWs

/-- Hex digit value of a code point, if any. -/
def hexVal (c : Nat) : Option Nat :=
  if 48 ≤ c ∧ c ≤ 57 then some (c - 48)
  else if 97 ≤ c ∧ c ≤ 102 then some (c - 87)
  else if 65 ≤ c ∧ c ≤ 70 then some (c - 55)
  else none

def isDigit (c : Nat) : Bool := 48 ≤ c && c ≤ 57

/-- Numeric value of a non-empty decimal digit string. -/
def digitsVal (ds : List Nat) : Nat :=
  ds.foldl (fun acc c => acc * 10 + (c - 48)) 0

/-- Insert into a Python-`dict`-semantics association list: a present key
keeps its position and gets the new value, a new key is appended. -/
def objInsert (l : List (PyStr × PyJson)) (k : PyStr) (v : PyJson) :
    List (PyStr × PyJson) :=
  match l with
  | [] => [(k, v)]
  | (k', v') :: rest =>
    if k' = k then (k', v) :: rest else (k', v') :: objInsert rest k v

/-- Parse a JSON string body (after the opening quote), returning the code
points and the remainder after the closing quote.  `\uXXXX` escapes are
decoded, with surrogate escape pairs combined as CPython does. -/
def parseJStr (fuel : Nat) (s : PyStr) : Option (PyStr × PyStr) :=
  match fuel with
  | 0 => none
  | fuel + 1 =>
    match s with
    | [] => none
    | 34 :: rest => some ([], rest)
    | 92 :: esc :: rest =>
      if esc = 117 then
        match rest with
        | h1 :: h2 :: h3 :: h4 :: rest2 =>
          match hexVal h1, hexVal h2, hexVal h3, hexVal h4 with
          | some v1, some v2, some v3, some v4 =>
            let cp := v1 * 4096 + v2 * 256 + v3 * 16 + v4
            if 55296 ≤ cp ∧ cp ≤ 56319 then
              match rest2 with
              | 92 :: 117 :: g1 :: g2 :: g3 :: g4 :: rest3 =>
                match hexVal g1, hexVal g2, hexVal g3, hexVal g4 with
                | some w1, some w2, some w3, some w4 =>
                  let cp2 := w1 * 4096 + w2 * 256 + w3 * 16 + w4
                  if 56320 ≤ cp2 ∧ cp2 ≤ 57343 then
                    (parseJStr fuel rest3).map
                      (fun (t, r) =>
                        ((65536 + (cp - 55296) * 1024 + (cp2 - 56320)) :: t, r))
                  else
                    (parseJStr fuel rest2).map (fun (t, r) => (cp :: t, r))
                | _, _, _, _ =>
                  (parseJStr fuel rest2).map (fun (t, r) => (cp :: t, r))
              | _ => (parseJStr fuel rest2).map (fun (t, r) => (cp :: t, r))
            else (parseJStr fuel rest2).map (fun (t, r) => (cp :: t, r))
          | _, _, _, _ => none
        | _ => none
      else
        let c? : Option Nat :=
          if esc = 34 then some 34 else if esc = 92 then some 92
          else if esc = 47 then some 47 else if esc = 98 then some 8
          else if esc = 102 then some 12 else if esc = 110 then some 10
          else if esc = 114 then some 13 else if esc = 116 then some 9
          else none
        match c? with
        | none => none
        | some c => (parseJStr fuel rest).map (fun (t, r) => (c :: t, r))
    | c :: rest =>
      if c < 32 then none
      else (parseJStr fuel rest).map (fun (t, r) => (c :: t, r))

/-- Parse an integer JSON number at the head of `s` (no leading
whitespace).  A fraction or exponent marks the float model boundary and
yields `none`. -/
def parseJNum (s : PyStr) : Option (PyJson × PyStr) :=
  let (neg, s1) :=
    match s with
    | 45 :: rest => (true, rest)
    | _ => (false, s)
  let ds := s1.takeWhile isDigit
  let rest := s1.drop ds.length
  if ds.isEmpty then none
  else if ds.length > 1 ∧ ds.headD 0 = 48 then none
  else
    match rest with
    | 46 :: _ => none
    | 101 :: _ => none
    | 69 :: _ => none
    | _ =>
      let v : Int := (digitsVal ds : Nat)
      some (.int (if neg then -v else v), rest)

mutual

/-- Parse one JSON value (leading whitespace allowed). -/
def parseJVal (fuel : Nat) (s : PyStr) : Option (PyJson × PyStr) :=
  match fuel with
  | 0 => none
  | fuel + 1 =>
    match skipWs s with
    | 110 :: 117 :: 108 :: 108 :: r => some (.null, r)
    | 116 :: 114 :: 117 :: 101 :: r => some (.bool true, r)
    | 102 :: 97 :: 108 :: 115 :: 101 :: r => some (.bool false, r)
    | 34 :: r => (parseJStr (r.length + 1) r).map (fun (t, rest) => (.str t, rest))
    | 91 :: r =>
      match skipWs r with
      | 93 :: rest => some (.arr [], rest)
      | r' => (parseJItems fuel r').map (fun (items, rest) => (.arr items, rest))
    | 123 :: r =>
      match skipWs r with
      | 125 :: rest => some (.obj [], rest)
      | r' => (parseJMembers fuel r' []).map (fun (items, rest) => (.obj items, rest))
    | r => parseJNum r

/-- Parse the elements of a non-empty array, expecting a value first. -/
def parseJItems (fuel : Nat) (s : PyStr) : Option (List PyJson × PyStr) :=
  match fuel with
  | 0 => none
  | fuel + 1 =>
    match parseJVal fuel s with
    | none => none
    | some (v, rest) =>
      match skipWs rest with
      | 44 :: rest2 =>
        (parseJItems fuel rest2).map (fun (items, r) => (v :: items, r))
      | 93 :: rest2 => some ([v], rest2)
      | _ => none

/-- Parse the members of a non-empty object, expecting a key first. -/
def parseJMembers (fuel : Nat) (s : PyStr) (acc : List (PyStr × PyJson)) :
    Option (List (PyStr × PyJson) × PyStr) :=
  match fuel with
  | 0 => none
  | fuel + 1 =>
    match skipWs s with
    | 34 :: r =>
      match parseJStr (r.length + 1) r with
      | none => none
      | some (k, rest) =>
        match skipWs rest with
        | 58 :: rest2 =>
          match parseJVal fuel rest2 with
          | none => none
          | some (v, rest3) =>
            let acc' := objInsert acc k v
            match skipWs rest3 with
            | 44 :: rest4 => parseJMembers fuel rest4 acc'
            | 125 :: rest4 => some (acc', rest4)
            | _ => none
        | _ => none
    | _ => none

end

/-- `json.loads` (integer-number fragment of it; `none` models the raised
`JSONDecodeError`, including on the float model boundary). -/
def pyJsonLoads (s : PyStr) : Option PyJson :=
  match parseJVal (s.length + 1) s with
  | none => none
  | some (v, rest) => if skipWs rest = [] then some v else none

/-- Escape one character of a JSON string for `json.dumps` with
`ensure_ascii=False`. -/
def jsonEscapeChar (c : Nat) : PyStr :=
  if c = 34 then [92, 34]
  else if c = 92 then [92, 92]
  else if c = 8 then [92, 98]
  else if c = 9 then [92, 116]
  else if c = 10 then [92, 110]
  else if c = 12 then [92, 102]
  else if c = 13 then [92, 114]
  else if c < 32 then
    [92, 117, 48, 48, hexDigitLower (c / 16), hexDigitLower (c % 16)]
  else [c]

/-- Serialized JSON string literal (quotes included). -/
def dumpJStr (s : PyStr) : PyStr :=
  34 :: s.flatMap jsonEscapeChar ++ [34]

/-- Decimal representation of an `Int`. -/
def intRepr (n : Int) : PyStr :=
  if n < 0 then 45 :: decDigits n.natAbs else decDigits n.toNat

mutual

/-- `json.dumps(obj, ensure_ascii=False, separators=(",", ":"))`
(`dump_json_compact` in `json_ops.py`). -/
def dumpCompact : PyJson → PyStr
  | .null => [110, 117, 108, 108]
  | .bool true => [116, 114, 117, 101]
  | .bool false => [102, 97, 108, 115, 101]
  | .int n => intRepr n
  | .str s => dumpJStr s
  | .arr items => 91 :: dumpCompactItems items ++ [93]
  | .obj items => 123 :: dumpCompactMembers items ++ [125]

def dumpCompactItems : List PyJson → PyStr
  | [] => []
  | [v] => dumpCompact v
  | v :: rest => dumpCompact v ++ 44 :: dumpCompactItems rest

def dumpCompactMembers : List (PyStr × PyJson) → PyStr
  | [] => []
  | [(k, v)] => dumpJStr k ++ 58 :: dumpCompact v
  | (k, v) :: rest => dumpJStr k ++ 58 :: dumpCompact v ++ 44 :: dumpCompactMembers rest

end

/-- Newline plus `2*level` spaces of indentation. -/
def jsonNl (level : Nat) : PyStr :=
  10 :: List.replicate (2 * level) 32

mutual

/-- `json.dumps(obj, indent=2, ensure_ascii=False)` (pretty-printing of
extracted Variant segments in `extract.py`). -/
def dumpPretty (level : Nat) : PyJson → PyStr
  | .arr [] => [91, 93]
  | .arr (v :: rest) =>
    91 :: jsonNl (level + 1) ++ dumpPrettyItems (level + 1) (v :: rest) ++
      jsonNl level ++ [93]
  | .obj [] => [123, 125]
  | .obj (m :: rest) =>
    123 :: jsonNl (level + 1) ++ dumpPrettyMembers (level + 1) (m :: rest) ++
      jsonNl level ++ [125]
  | .null => [110, 117, 108, 108]
  | .bool true => [116, 114, 117, 101]
  | .bool false => [102, 97, 108, 115, 101]
  | .int n => intRepr n
  | .str s => dumpJStr s

def dumpPrettyItems (level : Nat) : List PyJson → PyStr
  | [] => []
  | [v] => dumpPretty level v
  | v :: rest => dumpPretty level v ++ 44 :: jsonNl level ++ dumpPrettyItems level rest

def dumpPrettyMembers (level : Nat) : List (PyStr × PyJson) → PyStr
  | [] => []
  | [(k, v)] => dumpJStr k ++ 58 :: 32 :: dumpPretty level v
  | (k, v) :: rest =>
    dumpJStr k ++ 58 :: 32 :: dumpPretty level v ++ 44 :: jsonNl level ++
      dumpPrettyMembers level rest

end

/-! ## `src/core/json_ops.py` (the parts the codec uses) -/

/-- `read_text_any`: UTF-16LE on a BOM or a high NUL ratio, else UTF-8,
else UTF-16LE, else UTF-8 with replacement. -/
def read_text_any (b : Bytes) : PyStr :=
  let utf16Try : Option PyStr :=
    if b.take 2 = [255, 254] then utf16leDecodeStrict b else none
  match utf16Try with
  | some t => t
  | none =>
    let nul := b.count 0
    let utf16Try2 : Option PyStr :=
      if nul > max 16 (b.length / 10) then utf16leDecodeStrict b else none
    match utf16Try2 with
    | some t => t
    | none =>
      match utf8DecodeStrict b with
      | some t => t
      | none =>
        match utf16leDecodeStrict b with
        | some t => t
        | none => utf8DecodeReplace b

/-- `try_load_json`: strip a UTF-8 BOM code point, then `json.loads`. -/
def try_load_json (text : PyStr) : Option PyJson :=
  let t := match text with
    | 65279 :: rest => rest
    | _ => text
  pyJsonLoads t

/-- `dump_json_compact`. -/
def dump_json_compact (obj : PyJson) : PyStr := dumpCompact obj

/-! ## `src/core/model.py` -/

/-- `BlockInfo` (manifest record of one block).  String-valued fields that
hold file names or hex digests are byte lists; `kind`/`note` are plain
tags. -/
structure BlockInfo where
  index : Nat
  offset : Nat
  stored_len : Nat
  gzip_mtime : Nat
  out_name : List Nat
  kind : String
  note : String := ""
  file_sha1 : List Nat := []
  region_sha1 : List Nat := []
  orig_region : List Nat := []
  payload_prefix_len : Nat := 0
deriving Repr, DecidableEq

/-- The manifest produced by `extract` and consumed by `repack`.  The
`base_file` name and the diagnostic `container_info` map are not modelled:
no repack-side logic reads them. -/
structure Manifest where
  file_size : Nat
  base_sig : List Nat
  container : String
  blocks : List BlockInfo
deriving Repr, DecidableEq

/-- The extracted directory: file name (relative path, as bytes) to file
content.  Lookup takes the first match; extraction never duplicates a
name. -/
abbrev FileMap := List (List Nat × Bytes)

def lookupFile : FileMap → List Nat → Option Bytes
  | [], _ => none
  | (n, c) :: rest, name => if n = name then some c else lookupFile rest name

/-! ## `src/core/extract.py` -/

def H4SI : Bytes := asciiOf "H4sI"

def FALLEN_MAGIC : Bytes := asciiOf "FALLEN"

def FALLEN_SENTINEL : Bytes := asciiOf "FALLEN" ++ [0, 2]

/-- Byte allowed inside an `H4sI`-anchored base64 region
(`BASE64_ALLOWED | BASE64_WS`). -/
def isB64RegionByte (b : Nat) : Bool :=
  isB64Alpha b || b == 61 || b == 32 || b == 9 || b == 13 || b == 10

/-- ASCII whitespace removed by `bytes.split()`. -/
def pyWsByte (b : Nat) : Bool :=
  b == 32 || b == 9 || b == 10 || b == 13 || b == 11 || b == 12

/-- The `while True: off = data.find(pat, pos); pos = off + len(pat)` scan
loop shared by `scan_blocks` and the sentinel fallback, fuel-driven. -/
def scanPosGo (data pat : Bytes) (fuel pos : Nat) : List Nat :=
  match fuel with
  | 0 => []
  | fuel + 1 =>
    match findFrom data pat pos with
    | none => []
    | some off => off :: scanPosGo data pat fuel (off + pat.length)

def scanPositions (data pat : Bytes) : List Nat :=
  scanPosGo data pat (data.length + 1) 0

/-- `scan_blocks`: every `H4sI` anchor, greedily extended over base64-region
bytes; keep candidates whose whitespace-stripped length is at least 16.
The scan resumes 4 bytes after each anchor. -/
def scan_blocks (data : Bytes) : List (Nat × Nat × Bytes) :=
  (scanPositions data H4SI).filterMap fun off =>
    let stored := (data.drop off).takeWhile isB64RegionByte
    let stripped := stored.filter (fun b => !(pyWsByte b))
    if 16 ≤ stripped.length then some (off, stored.length, stripped) else none

/-- The fallback branch of `scan_fallen_segments`: one segment per sentinel
position, ending at the next position (or at end of file). -/
def fallenFallbackSegs (data : Bytes) : List Nat → List (Nat × Nat × Bytes)
  | [] => []
  | [off] =>
    [(off + 8, data.length - (off + 8), pySlice data (off + 8) data.length)]
  | off :: off2 :: rest =>
    (off + 8, off2 - (off + 8), pySlice data (off + 8) off2) ::
      fallenFallbackSegs data (off2 :: rest)

/-- The header-table branch of `scan_fallen_segments`: one pass over the
16-byte entries, keeping entries whose payload is in range and preceded by
the primary sentinel.  (With the bounds guard satisfied, none of the
`struct` reads can raise, so the `except` path never fires.) -/
def fallenTableSegs (data : Bytes) : List (Nat × Nat × Bytes) :=
  if 24 ≤ data.length then
    let base_len := readU32le data 8
    let entry_count := readU32le data 16
    if 24 ≤ base_len ∧ base_len ≤ 65536 ∧ entry_count ≤ 65536 ∧
        base_len + entry_count * 16 ≤ data.length then
      (List.range entry_count).filterMap fun i =>
        let off := base_len + i * 16
        let seg_len := readU32le data (off + 8)
        let payload_off := readU32le data (off + 12)
        if payload_off = 0 ∨ seg_len = 0 then none
        else if data.length < payload_off + seg_len ∨ payload_off < 8 then none
        else if pySlice data (payload_off - 8) payload_off = FALLEN_SENTINEL then
          some (payload_off, seg_len, pySlice data payload_off (payload_off + seg_len))
        else none
    else []
  else []

/-- `scan_fallen_segments`: prefer the header table; fall back to sentinel
scanning when the table is absent, malformed, or yields no segment. -/
def scan_fallen_segments (data : Bytes) : List (Nat × Nat × Bytes) :=
  if data.take 6 ≠ FALLEN_MAGIC then []
  else
    let tableSegs := fallenTableSegs data
    if tableSegs ≠ [] then tableSegs
    else fallenFallbackSegs data (scanPositions data FALLEN_SENTINEL)

/-- `_fallen_trim_json_text`: lossy UTF-16LE decode, trim to the last JSON
terminator, clamp the editable prefix at the first embedded tail marker,
and force the prefix length even. -/
def fallenTrimJsonText (payload_bytes : Bytes) : PyStr × Nat :=
  let txt_all := utf16leDecodeIgnore payload_bytes
  let markers : List Bytes :=
    [FALLEN_MAGIC ++ [0, 0], FALLEN_MAGIC ++ [0, 1], FALLEN_MAGIC ++ [0, 3]]
  let marker_pos : Int :=
    markers.foldl
      (fun acc mk =>
        let p := pyFindPat payload_bytes mk
        if p ≠ -1 ∧ (acc = -1 ∨ p < acc) then p else acc)
      (-1)
  let rbrace := pyRfind txt_all 125
  let rbrack := pyRfind txt_all 93
  let endj := max rbrace rbrack
  if endj = -1 then
    let trimmed := pyStrip (pyRstripNul txt_all)
    let prefix_len : Nat := if 0 < marker_pos then marker_pos.toNat else 0
    let prefix_len := if prefix_len % 2 = 1 then prefix_len - 1 else prefix_len
    (trimmed, prefix_len)
  else
    let e := endj.toNat
    let trimmed := pyStrip (txt_all.take (e + 1))
    let prefix_len := min payload_bytes.length ((e + 1) * 2)
    let prefix_len :=
      if 0 < marker_pos ∧ marker_pos < (prefix_len : Int) then marker_pos.toNat
      else prefix_len
    let prefix_len := if prefix_len % 2 = 1 then prefix_len - 1 else prefix_len
    (trimmed, prefix_len)

/-- `f"orig_{idx:02d}_off_{off:08X}.bin"`. -/
def origName (idx off : Nat) : List Nat :=
  asciiOf "orig_" ++ pad2 idx ++ asciiOf "_off_" ++ hex8 off ++ asciiOf ".bin"

/-- `f"block_{idx:02d}_off_{off:08X}{ext}"`. -/
def blockName (idx off : Nat) (ext : String) : List Nat :=
  asciiOf "block_" ++ pad2 idx ++ asciiOf "_off_" ++ hex8 off ++ asciiOf ext

/-- Extraction of one Variant (`fallen`) segment: write the original region
copy, decode/trim/pretty-print the text, write it UTF-16LE, and record the
block metadata.  `none` models an exception escaping `extract` (only the
UTF-16LE encode can raise here). -/
def extractFallenSeg (idx : Nat) (seg : Nat × Nat × Bytes) :
    Option (BlockInfo × FileMap) :=
  let (off, stored_len, payload_bytes) := seg
  let origPath := asciiOf "orig_regions/" ++ origName idx off
  let (txt0, prefix_len) := fallenTrimJsonText payload_bytes
  let (txt, ext) :=
    match pyJsonLoads txt0 with
    | some obj => (dumpPretty 0 obj, ".json")
    | none => (txt0, ".txt")
  match utf16leEncode txt with
  | none => none
  | some fileBytes =>
    let name := asciiOf "blocks/" ++ blockName idx off ext
    some
      ({ index := idx, offset := off, stored_len := stored_len, gzip_mtime := 0,
         out_name := name, kind := "fallen_text", note := "fallen_segment",
         file_sha1 := sha1Hex fileBytes, region_sha1 := sha1Hex payload_bytes,
         orig_region := asciiOf "orig_regions/" ++ origName idx off,
         payload_prefix_len := prefix_len },
       [(origPath, payload_bytes), (name, fileBytes)])

def extractFallenGo (data : Bytes) (segs : List (Nat × Nat × Bytes)) (idx : Nat) :
    Option (List BlockInfo × FileMap) :=
  match segs with
  | [] => some ([], [])
  | seg :: rest =>
    match extractFallenSeg idx seg with
    | none => none
    | some (bi, entries) =>
      (extractFallenGo data rest (idx + 1)).map
        (fun (bis, fm) => (bi :: bis, entries ++ fm))

/-- Result of processing one scanned `h4si` segment: the segment is skipped
(`continue`), recorded, or an exception aborts the whole extraction. -/
inductive SegResult where
  | abort : SegResult
  | skip : SegResult
  | ok : BlockInfo → FileMap → SegResult

/-- Extraction of one Fixed (`h4si`) segment.  A failed tolerant base64
decode or an empty decompression result skips the segment (the bare
`continue` statements in `extract`); a decompression error aborts. -/
def extractH4siSeg (data : Bytes) (idx : Nat) (seg : Nat × Nat × Bytes) :
    SegResult :=
  let (off, stored_len, b64_stripped) := seg
  match b64_decode_gz b64_stripped with
  | none => .skip
  | some gz =>
    match gunzip gz with
    | none => .abort
    | some payload =>
      if payload.isEmpty then .skip
      else
        let mtime := gzip_mtime gz
        let region_bytes := pySlice data off (off + stored_len)
        let origPath := asciiOf "orig_regions/" ++ origName idx off
        match utf16leDecodeStrict payload with
        | some txt =>
          let ext := if (pyJsonLoads txt).isSome then ".json" else ".txt"
          match utf16leEncode txt with
          | none => .abort
          | some fileBytes =>
            let name := asciiOf "blocks/" ++ blockName idx off ext
            .ok
              { index := idx, offset := off, stored_len := stored_len,
                gzip_mtime := mtime, out_name := name, kind := "text",
                note := "", file_sha1 := sha1Hex fileBytes,
                region_sha1 := sha1Hex region_bytes,
                orig_region := asciiOf "orig_regions/" ++ origName idx off,
                payload_prefix_len := 0 }
              [(origPath, region_bytes), (name, fileBytes)]
        | none =>
          let name := asciiOf "blocks/" ++ blockName idx off ".bin"
          .ok
            { index := idx, offset := off, stored_len := stored_len,
              gzip_mtime := mtime, out_name := name, kind := "binary",
              note := "", file_sha1 := sha1Hex payload,
              region_sha1 := sha1Hex region_bytes,
              orig_region := asciiOf "orig_regions/" ++ origName idx off,
              payload_prefix_len := 0 }
            [(origPath, region_bytes), (name, payload)]

def extractH4siGo (data : Bytes) (segs : List (Nat × Nat × Bytes)) (idx : Nat) :
    Option (List BlockInfo × FileMap) :=
  match segs with
  | [] => some ([], [])
  | seg :: rest =>
    match extractH4siSeg data idx seg with
    | .abort => none
    | .skip => extractH4siGo data rest idx
    | .ok bi entries =>
      (extractH4siGo data rest (idx + 1)).map
        (fun (bis, fm) => (bi :: bis, entries ++ fm))

/-- `extract(memory_dat, out_dir)`: scan, decode and write every block, and
produce the manifest.  `none` models an exception escaping `extract`. -/
def extract (data : Bytes) : Option (Manifest × FileMap) :=
  if data.take 6 = FALLEN_MAGIC then
    (extractFallenGo data (scan_fallen_segments data) 0).map fun (bis, fm) =>
      ({ file_size := data.length, base_sig := sha1Hex data,
         container := "fallen", blocks := bis }, fm)
  else
    (extractH4siGo data (scan_blocks data) 0).map fun (bis, fm) =>
      ({ file_size := data.length, base_sig := sha1Hex data,
         container := "h4si", blocks := bis }, fm)

/-! ## `src/core/repack.py`

`repack` and `repack_preflight` take the manifest structurally (the
`manifest.json` serialization round-trip of `_load_manifest` is not
modelled) and the extracted directory as a `FileMap`.  Warnings are
modelled as the indices of the failing blocks (the source formats a
message string from the same data). -/

/-- `_fallen_capacity`: bytes reserved for the editable prefix. -/
def fallenCapacity (bi : BlockInfo) : Nat :=
  if bi.payload_prefix_len ≠ 0 then bi.payload_prefix_len else bi.stored_len

/-- `_is_untouched`, given the extracted file's content (the existence
check is the `lookupFile` match at the call sites). -/
def isUntouched (bi : BlockInfo) (content : Bytes) : Bool :=
  bi.file_sha1 ≠ [] && sha1Hex content == bi.file_sha1

/-- `_validate_base_region` succeeds (no exception) on this block. -/
def regionValid (bi : BlockInfo) (base : Bytes) : Bool :=
  bi.region_sha1 == [] ||
    sha1Hex (pySlice base bi.offset (bi.offset + bi.stored_len)) == bi.region_sha1

/-- `_build_new_bytes_for_fallen_block`: tolerant read, opportunistic JSON
minification, UTF-16LE re-encode (`none` = exception, caught per block). -/
def buildFallenPayload (content : Bytes) : Option Bytes :=
  let txt := read_text_any content
  let txt :=
    match try_load_json txt with
    | some obj => dump_json_compact obj
    | none => txt
  utf16leEncode txt

/-- `_build_new_b64_for_block`: re-encode an extracted file to the base64
bytes for its fixed region, according to its kind. -/
def buildB64 (bi : BlockInfo) (content : Bytes) : Option Bytes :=
  if bi.kind = "raw_gz" then some (b64_encode content)
  else if bi.kind = "binary" then
    some (b64_encode (gzip_compress content bi.gzip_mtime))
  else
    let txt := read_text_any content
    let txt :=
      match try_load_json txt with
      | some obj => dump_json_compact obj
      | none => txt
    (utf16leEncode txt).map fun payload =>
      b64_encode (gzip_compress payload bi.gzip_mtime)

/-- The padding bytes the Variant write path actually appends: the source
line `payload + (b"\\x00" * (cap - new_len))` contains the four-character
literal backslash-x-zero-zero (the backslash is escaped in the file), so
each unit of padding is the four ASCII bytes `5C 78 30 30`, not a NUL. -/
def notNullPad (n : Nat) : Bytes :=
  (List.replicate n ([92, 120, 48, 48] : Bytes)).flatten

/-- The Variant (`fallen`) region write of `repack` (lines 276–285 of
`repack.py`), for a payload already known to fit the capacity: pad the
payload with the `notNullPad` pattern, append the original tail, then
force the region to `stored_len` bytes. -/
def fallenWriteRegion (base out : Bytes) (bi : BlockInfo) (payload : Bytes) :
    Bytes :=
  let cap := fallenCapacity bi
  let tail := pySlice base (bi.offset + cap) (bi.offset + bi.stored_len)
  let paddedPrefix := payload ++ notNullPad (cap - payload.length)
  let final := paddedPrefix ++ tail
  let final :=
    if final.length ≠ bi.stored_len then
      final.take bi.stored_len ++ notNullPad (bi.stored_len - final.length)
    else final
  setSlice out bi.offset (bi.offset + bi.stored_len) final

/-- The Fixed (`h4si`) region write of `repack` (lines 297–298): the new
base64 bytes right-padded with ASCII spaces to `stored_len`. -/
def h4siWriteRegion (out : Bytes) (bi : BlockInfo) (newB64 : Bytes) : Bytes :=
  setSlice out bi.offset (bi.offset + bi.stored_len)
    (newB64 ++ List.replicate (bi.stored_len - newB64.length) 32)

/-- Accumulated state of the `repack` block loop. -/
structure RepackState where
  out : Bytes
  ok : Nat
  fail : Nat
  skipped : Nat
  warnings : List Nat
deriving Repr, DecidableEq

/-- The `repack` base-signature mismatch message. -/
def sigMismatchMsg : String :=
  "Base file does not match extracted manifest (signature mismatch). Please re-extract."

/-- The `_validate_base_region` mismatch message (raised, aborting the
operation). -/
def regionMismatchMsg : String :=
  "Base file mismatch at block. Please re-extract from the same base memory.dat before repacking."

/-- One iteration of the `repack` block loop. -/
def repackStep (container : String) (base : Bytes) (dir : FileMap)
    (st : RepackState) (bi : BlockInfo) : Except String RepackState :=
  if ¬ regionValid bi base then .error regionMismatchMsg
  else
    match lookupFile dir bi.out_name with
    | none => .ok { st with skipped := st.skipped + 1 }
    | some content =>
      if isUntouched bi content then .ok { st with skipped := st.skipped + 1 }
      else if container = "fallen" ∨ bi.kind = "fallen_text" then
        match buildFallenPayload content with
        | none =>
          .ok { st with fail := st.fail + 1, warnings := st.warnings ++ [bi.index] }
        | some payload =>
          if fallenCapacity bi < payload.length then
            .ok { st with fail := st.fail + 1, warnings := st.warnings ++ [bi.index] }
          else
            .ok { st with out := fallenWriteRegion base st.out bi payload,
                          ok := st.ok + 1 }
      else
        match buildB64 bi content with
        | none =>
          .ok { st with fail := st.fail + 1, warnings := st.warnings ++ [bi.index] }
        | some newB64 =>
          if bi.stored_len < newB64.length then
            .ok { st with fail := st.fail + 1, warnings := st.warnings ++ [bi.index] }
          else
            .ok { st with out := h4siWriteRegion st.out bi newB64,
                          ok := st.ok + 1 }

def repackGo (container : String) (base : Bytes) (dir : FileMap)
    (blocks : List BlockInfo) (st : RepackState) : Except String RepackState :=
  match blocks with
  | [] => .ok st
  | bi :: rest =>
    match repackStep container base dir st bi with
    | .error e => .error e
    | .ok st' => repackGo container base dir rest st'

/-- `repack(base_memory_dat, extracted_dir, out_path)`: validate the base
signature, process every block over a copy of the base bytes, and return
the output bytes with the ok/fail/skip counts.  An `.error` models the
raised `ValueError` (no output file is written in that case). -/
def repack (base : Bytes) (man : Manifest) (dir : FileMap) :
    Except String RepackState :=
  if man.base_sig ≠ [] ∧ man.base_sig ≠ sha1Hex base then .error sigMismatchMsg
  else repackGo man.container base dir man.blocks ⟨base, 0, 0, 0, []⟩

/-- One entry of the preflight report (`PreflightItem`).  `headroom` may be
negative, hence `Int`. -/
structure PreflightItem where
  index : Nat
  offset : Nat
  stored_len : Nat
  new_len : Nat
  headroom : Int
  out_name : List Nat
  kind : String
  status : String
  note : String := ""
deriving Repr, DecidableEq

/-- One iteration of the `repack_preflight` block loop. -/
def preflightStep (container : String) (base : Bytes) (dir : FileMap)
    (bi : BlockInfo) : Except String PreflightItem :=
  if ¬ regionValid bi base then .error regionMismatchMsg
  else
    match lookupFile dir bi.out_name with
    | none =>
      .ok ⟨bi.index, bi.offset, bi.stored_len, 0, (bi.stored_len : Int),
        bi.out_name, bi.kind, "SKIP", "missing extracted file"⟩
    | some content =>
      if isUntouched bi content then
        .ok ⟨bi.index, bi.offset, bi.stored_len, 0, (bi.stored_len : Int),
          bi.out_name, bi.kind, "SKIP", "unchanged"⟩
      else if container = "fallen" ∨ bi.kind = "fallen_text" then
        match buildFallenPayload content with
        | none =>
          .ok ⟨bi.index, bi.offset, bi.stored_len, 0, (bi.stored_len : Int),
            bi.out_name, bi.kind, "ERROR", "exception"⟩
        | some payload =>
          let headroom : Int := (fallenCapacity bi : Int) - (payload.length : Int)
          .ok ⟨bi.index, bi.offset, bi.stored_len, payload.length, headroom,
            bi.out_name, bi.kind, if 0 ≤ headroom then "OK" else "FAIL", ""⟩
      else
        match buildB64 bi content with
        | none =>
          .ok ⟨bi.index, bi.offset, bi.stored_len, 0, (bi.stored_len : Int),
            bi.out_name, bi.kind, "ERROR", "exception"⟩
        | some newB64 =>
          let headroom : Int := (bi.stored_len : Int) - (newB64.length : Int)
          .ok ⟨bi.index, bi.offset, bi.stored_len, newB64.length, headroom,
            bi.out_name, bi.kind, if 0 ≤ headroom then "OK" else "FAIL", ""⟩

def preflightGo (container : String) (base : Bytes) (dir : FileMap)
    (blocks : List BlockInfo) : Except String (List PreflightItem) :=
  match blocks with
  | [] => .ok []
  | bi :: rest =>
    match preflightStep container base dir bi with
    | .error e => .error e
    | .ok item =>
      match preflightGo container base dir rest with
      | .error e => .error e
      | .ok items => .ok (item :: items)

/-- `repack_preflight(base_memory_dat, extracted_dir)`: same validation and
per-block classification as `repack`, without writing an output file. -/
def repack_preflight (base : Bytes) (man : Manifest) (dir : FileMap) :
    Except String (List PreflightItem) :=
  if man.base_sig ≠ [] ∧ man.base_sig ≠ sha1Hex base then .error sigMismatchMsg
  else preflightGo man.container base dir man.blocks

/-! ## Specification-side definitions

Definitions phrased after the specification's wording, for comparison with
the source-derived functions above. -/

/-- All indices at which the 8-byte sentinel occurs in `data` (the
specification's "sentinel occurrence" count for the fallback scan). -/
def sentinelOccurrences (data : Bytes) : List Nat :=
  (List.range data.length).filter (fun i => matchAt data FALLEN_SENTINEL i)

/-- Does a scanned `h4si` segment decode successfully (tolerant base64,
gzip, nonempty payload)?  Segments for which this is `false` are the ones
the failure-policy claim is about. -/
def h4siSegDecodes (seg : Nat × Nat × Bytes) : Bool :=
  match b64_decode_gz seg.2.2 with
  | none => false
  | some gz =>
    match gunzip gz with
    | none => false
    | some payload => !payload.isEmpty

/-- The three-attempt decode cascade of `b64_decode_gz` (strict, trimmed
retry, padded non-validating), before the gzip-ness checks — the
specification's "attempts". -/
def b64RawCascade (s : Bytes) : Option Bytes :=
  match pyB64Decode true s with
  | some r => some r
  | none =>
    match
      (match trimAfterPadding s with
       | some t => pyB64Decode true t
       | none => none) with
    | some r => some r
    | none => pyB64Decode false (s ++ List.replicate ((4 - s.length % 4) % 4) 61)

/-! ## Concrete inputs for witnesses and counterexamples -/

/-- An `h4si` base file with one valid block: two leading bytes, a
base64(gzip(UTF-16LE `{"a":1}`)) region, one trailing non-base64 byte. -/
def c1Data : Bytes :=
  asciiOf "AB" ++
    b64_encode (gzip_compress ((utf16leEncode (asciiOf "\x7b\"a\":1\x7d")).getD []) 0) ++
    [255]

def emptyManifest : Manifest := ⟨0, [], "", []⟩

def c1Ext : Manifest × FileMap := (extract c1Data).getD (emptyManifest, [])

/-- Base bytes for the Variant tail-preservation check: the block region is
the whole file, the tail `[6, 8)` holds the bytes `7, 7`. -/
def c2Base : Bytes := [0, 1, 2, 3, 4, 5, 7, 7]

/-- A Variant text block over all of `c2Base` with a 6-byte editable
prefix. -/
def c2Block : BlockInfo :=
  { index := 0, offset := 0, stored_len := 8, gzip_mtime := 0,
    out_name := asciiOf "blocks/block_00_off_00000000.txt", kind := "fallen_text",
    file_sha1 := [97], payload_prefix_len := 6 }

/-- Edited block file: UTF-16LE "A" with BOM; re-encodes to the 4-byte
payload `FF FE 41 00`, shorter than the 6-byte capacity. -/
def c2Content : Bytes := [255, 254, 65, 0]

def c2Dir : FileMap := [(asciiOf "blocks/block_00_off_00000000.txt", c2Content)]

def c2State : RepackState := ⟨c2Base, 0, 0, 0, []⟩

def c3Base : Bytes := [10, 11, 12, 13, 14, 15, 16, 17]

def c3Block : BlockInfo :=
  { index := 0, offset := 0, stored_len := 8, gzip_mtime := 0,
    out_name := asciiOf "blocks/block_00_off_00000000.txt", kind := "fallen_text",
    file_sha1 := [97], payload_prefix_len := 6 }

/-- Edited block file: UTF-16LE "B" with BOM (4-byte payload). -/
def c3Content : Bytes := [255, 254, 66, 0]

def c3Dir : FileMap := [(asciiOf "blocks/block_00_off_00000000.txt", c3Content)]

def c3State : RepackState := ⟨c3Base, 0, 0, 0, []⟩

/-- An `h4si` file whose single scanned segment (17 base64 characters) fails
every decode attempt: 17 data characters are 1 more than a multiple of 4. -/
def c4Data : Bytes := asciiOf "H4sIAAAAAAAAAAAAA"

/-- Witness input for the amended failure-policy claim (same shape,
different digits). -/
def c4wData : Bytes := asciiOf "H4sIBBBBBBBBBBBBB"

def c4wExt : Manifest × FileMap := (extract c4wData).getD (emptyManifest, [])

/-- Fixed-container blocks for the capacity-invariant claim: a `raw_gz`
block whose 4-character payload fits `stored_len = 6`, and one whose
payload exceeds `stored_len = 2`. -/
def c5Base : Bytes := List.replicate 12 1

def c5Content : Bytes := [1, 2, 3]

def c5BlockOk : BlockInfo :=
  { index := 0, offset := 2, stored_len := 6, gzip_mtime := 0,
    out_name := asciiOf "blocks/block_00_off_00000002.bin", kind := "raw_gz",
    file_sha1 := [97] }

def c5BlockFail : BlockInfo :=
  { index := 1, offset := 9, stored_len := 2, gzip_mtime := 0,
    out_name := asciiOf "blocks/block_01_off_00000009.bin", kind := "raw_gz",
    file_sha1 := [97] }

def c5Dir : FileMap :=
  [(asciiOf "blocks/block_00_off_00000002.bin", c5Content),
   (asciiOf "blocks/block_01_off_00000009.bin", c5Content)]

def c5State : RepackState := ⟨c5Base, 0, 0, 0, []⟩

/-- A Variant base file (used for the drift-detection witness). -/
def c6Data : Bytes :=
  asciiOf "FALLEN" ++ [0, 2] ++ (utf16leEncode (asciiOf "\x7b\"b\":2\x7d")).getD [] ++ [0, 0]

def c6Ext : Manifest × FileMap := (extract c6Data).getD (emptyManifest, [])

/-- `c6Data` with a single byte mutated (the last byte `0 → 9`). -/
def c6Mutated : Bytes := c6Data.dropLast ++ [9]

/-- Variant file, shorter than 24 bytes (no header table), one sentinel at
offset 0. -/
def c7wData : Bytes := asciiOf "FALLEN" ++ [0, 2] ++ asciiOf "ABCD"

/-- A Variant file whose header table lists two valid entries in
descending payload-offset order.  Layout: 24-byte header (`base_len = 24`,
`entry_count = 2`), two 16-byte entries, then sentinel + 4-byte payload at
64 and sentinel + 4-byte payload at 76. -/
def c8Data : Bytes :=
  FALLEN_MAGIC ++ [0, 0] ++
  u32le 24 ++ u32le 0 ++ u32le 2 ++ u32le 0 ++
  (u32le 1 ++ u32le 2 ++ u32le 4 ++ u32le 76) ++
  (u32le 1 ++ u32le 2 ++ u32le 4 ++ u32le 64) ++
  FALLEN_SENTINEL ++ [10, 11, 12, 13] ++
  FALLEN_SENTINEL ++ [20, 21, 22, 23]

/-- Witness input for the amended ordering claim: fallback scan with two
sentinels. -/
def c8wData : Bytes :=
  asciiOf "FALLEN" ++ [0, 2] ++ asciiOf "WX" ++ asciiOf "FALLEN" ++ [0, 2] ++ asciiOf "YZ"

/-! # Theorems -/

/-! ## Basic facts about the byte helpers -/

theorem leBytes_length (k n : Nat) : (leBytes k n).length = k := by
  induction k generalizing n with
  | zero => rfl
  | succ k ih => simp [leBytes, ih]

theorem pySlice_eq_drop_take (data : Bytes) (a b : Nat) :
    pySlice data a b = (data.drop a).take (b - a) := by
  simp [pySlice, List.drop_take]

theorem u16le_eq (n : Nat) : u16le n = [n % 256, n / 256 % 256] := by
  simp [u16le, leBytes]

theorem u32le_eq (n : Nat) :
    u32le n = [n % 256, n / 256 % 256, n / 256 / 256 % 256, n / 256 / 256 / 256 % 256] := by
  simp [u32le, leBytes]

/-! ## SHA-1 digests are 40 nonempty hex characters -/

theorem sha1_length (msg : Bytes) : (sha1 msg).length = 20 := by
  simp [sha1, u32be]

theorem sha1Hex_ne_nil (b : Bytes) : sha1Hex b ≠ [] := by
  have h20 := sha1_length b
  rcases hs : sha1 b with _ | ⟨x, xs⟩
  · rw [hs] at h20; simp at h20
  · simp [sha1Hex, hs, hexdigest]

/-! ## C6: base-signature drift guard -/

/-- C6: if the manifest carries a base signature and it differs from the
SHA-1 of the supplied base file, both `repack` and `repack_preflight`
return the signature-mismatch error before touching any block, and no
output bytes are produced. -/
theorem repack_sig_mismatch_aborts (base : Bytes) (man : Manifest) (dir : FileMap)
    (hsig : man.base_sig ≠ []) (hne : man.base_sig ≠ sha1Hex base) :
    repack base man dir = .error sigMismatchMsg ∧
    repack_preflight base man dir = .error sigMismatchMsg := by
  constructor
  · simp [repack, hsig, hne]
  · simp [repack_preflight, hsig, hne]

/-- Witness for C6: extracting a Variant file, mutating its last byte and
repacking against the stale manifest hits the drift guard. -/
theorem repack_sig_mismatch_aborts_witness :
    c6Ext.1.base_sig ≠ [] ∧ c6Ext.1.base_sig ≠ sha1Hex c6Mutated ∧
    repack c6Mutated c6Ext.1 c6Ext.2 = .error sigMismatchMsg ∧
    repack_preflight c6Mutated c6Ext.1 c6Ext.2 = .error sigMismatchMsg := by
  have h1 : c6Ext.1.base_sig ≠ [] := by decide
  have h2 : c6Ext.1.base_sig ≠ sha1Hex c6Mutated := by decide
  have h := repack_sig_mismatch_aborts c6Mutated c6Ext.1 c6Ext.2 h1 h2
  exact ⟨h1, h2, h.1, h.2⟩

/-! ## C10: gzip primitives round-trip -/

theorem inflate_deflateGo :
    ∀ (gofuel : Nat) (l rest : Bytes) (ifuel : Nat),
      l.length < gofuel → l.length < ifuel →
      inflateStored ifuel (deflateGo gofuel l ++ rest) = .done l rest := by
  intro gofuel
  induction gofuel with
  | zero => intro l rest ifuel hl _; exact absurd hl (Nat.not_lt_zero _)
  | succ gofuel ih =>
    intro l rest ifuel hl hif
    obtain ⟨jf, rfl⟩ : ∃ k, ifuel = k + 1 := ⟨ifuel - 1, by omega⟩
    rw [deflateGo]
    by_cases hle : l.length ≤ 65535
    · rw [if_pos hle]
      simp only [u16le_eq, List.cons_append, List.append_assoc, List.nil_append]
      rw [inflateStored]
      have hlen : l.length % 256 + 256 * (l.length / 256 % 256) = l.length := by omega
      have hnlen : (65535 - l.length) % 256 + 256 * ((65535 - l.length) / 256 % 256) =
          65535 - l.length := by omega
      rw [if_pos (by norm_num)]
      rw [hlen, hnlen]
      rw [if_neg (by omega)]
      rw [if_neg (by simp [List.length_append])]
      rw [if_pos (by norm_num)]
      rw [List.take_left' rfl, List.drop_left' rfl]
    · rw [if_neg hle]
      have h255 : u16le 65535 = [255, 255] := by decide
      have h0 : u16le 0 = [0, 0] := by decide
      rw [h255, h0]
      simp only [List.cons_append, List.append_assoc, List.nil_append]
      rw [inflateStored]
      rw [if_pos (by norm_num)]
      have htl : (l.take 65535).length = 65535 := by
        simp [List.length_take]; omega
      have hlen255 : (255 : Nat) + 256 * 255 = 65535 := by norm_num
      rw [hlen255]
      rw [if_neg (by omega)]
      rw [if_neg (by simp [List.length_append, htl])]
      rw [if_neg (by norm_num)]
      rw [List.drop_left' htl]
      rw [ih (l.drop 65535) rest jf (by simp [List.length_drop]; omega)
        (by simp [List.length_drop]; omega)]
      rw [List.take_left' htl]
      show InflRes.done (l.take 65535 ++ l.drop 65535) rest = InflRes.done l rest
      rw [List.take_append_drop]

theorem deflateGo_length_ge (gofuel : Nat) (l : Bytes) (h : l.length < gofuel) :
    l.length ≤ (deflateGo gofuel l).length := by
  induction gofuel generalizing l with
  | zero => exact absurd h (Nat.not_lt_zero _)
  | succ gofuel ih =>
    rw [deflateGo]
    by_cases hle : l.length ≤ 65535
    · rw [if_pos hle]; simp [u16le_eq]; omega
    · rw [if_neg hle]
      have := ih (l.drop 65535) (by simp [List.length_drop]; omega)
      simp only [List.length_cons, List.length_append, u16le_eq, List.length_take,
        List.length_drop] at *
      omega

/-- C10: for every payload and 32-bit mtime, `gunzip ∘ gzip_compress` is the
identity (also with arbitrary trailing junk appended), and `gzip_mtime`
reads back the stored mtime. -/
theorem gzip_gunzip_roundtrip (p : Bytes) (m : Nat) (junk : Bytes)
    (hm : m < 4294967296) :
    gunzip (gzip_compress p m ++ junk) = some p ∧
    gunzip (gzip_compress p m) = some p ∧
    gzip_mtime (gzip_compress p m) = m := by
  have main : ∀ (junk' : Bytes), gunzip (gzip_compress p m ++ junk') = some p := by
    intro junk'
    rw [gzip_compress, u32le_eq]
    rw [if_pos rfl]
    simp only [List.cons_append, List.append_assoc, List.nil_append]
    rw [gunzip]
    rw [if_neg (by simp [List.length_append])]
    rw [if_neg (by simp [pySlice])]
    rw [if_neg (by simp)]
    rw [if_neg (by simp)]
    simp only [List.drop_succ_cons, List.drop_zero]
    rw [show deflateStored p ++ (u32le (crc32 p) ++ (u32le p.length ++ junk')) =
      deflateStored p ++ ((u32le (crc32 p) ++ u32le p.length) ++ junk') by
        simp [List.append_assoc]]
    rw [deflateStored]
    rw [inflate_deflateGo (p.length + 1) p _ _ (Nat.lt_succ_self _)
      (by
        have hD := deflateGo_length_ge (p.length + 1) p (Nat.lt_succ_self _)
        simp only [deflateStored] at hD
        simp only [List.length_cons, List.length_append]
        omega)]
    have h8 : ((u32le (crc32 p) ++ u32le p.length)).length = 8 := by
      simp [leBytes_length, u32le]
    show (if 8 ≤ ((u32le (crc32 p) ++ u32le p.length) ++ junk').length then
        if ((u32le (crc32 p) ++ u32le p.length) ++ junk').take 8 =
            u32le (crc32 p) ++ u32le p.length then some p else none
      else some p) = some p
    rw [if_pos (by simp only [List.length_append, h8]; omega)]
    rw [if_pos (by rw [List.take_left' h8])]
  refine ⟨main junk, by have h := main []; rwa [List.append_nil] at h, ?_⟩
  rw [gzip_compress, u32le_eq, if_pos rfl]
  simp only [List.cons_append, List.append_assoc, List.nil_append]
  rw [gzip_mtime]
  rw [if_neg (by simp only [List.length_cons, List.length_append]; omega)]
  rw [if_neg (by simp [pySlice])]
  show readLE _ 4 4 = m
  rw [readLE]
  simp [pySlice]
  omega

/-- Witness for C10 at a concrete payload, mtime and junk suffix. -/
theorem gzip_gunzip_roundtrip_witness :
    (5 : Nat) < 4294967296 ∧
    gunzip (gzip_compress [1, 2, 3] 5 ++ [9, 9]) = some [1, 2, 3] ∧
    gunzip (gzip_compress [1, 2, 3] 5) = some [1, 2, 3] ∧
    gzip_mtime (gzip_compress [1, 2, 3] 5) = 5 := by
  have h := gzip_gunzip_roundtrip [1, 2, 3] 5 [9, 9] (by decide)
  exact ⟨by decide, h.1, h.2.1, h.2.2⟩

/-! ## Slice-assignment facts -/

theorem setSlice_length (buf : Bytes) (a b : Nat) (v : Bytes)
    (hab : a ≤ b) (hb : b ≤ buf.length) (hv : v.length = b - a) :
    (setSlice buf a b v).length = buf.length := by
  simp only [setSlice, List.length_append, List.length_take, List.length_drop]
  omega

theorem setSlice_slice (buf : Bytes) (a b : Nat) (v : Bytes)
    (hab : a ≤ b) (hb : b ≤ buf.length) :
    pySlice (setSlice buf a b v) a (a + v.length) = v := by
  have ha : a ≤ buf.length := le_trans hab hb
  rw [setSlice, pySlice_eq_drop_take]
  have ha' : min a buf.length = a := Nat.min_eq_left ha
  have hb' : min (max b a) buf.length = b := by omega
  rw [ha', hb']
  have hlt : (buf.take a).length = a := by simp [List.length_take]; omega
  rw [List.append_assoc, List.drop_left' hlt]
  have hcancel : a + v.length - a = v.length := by omega
  rw [hcancel, List.take_left' rfl]

/-! ## C5: Fixed-container capacity invariant and fail-soft behaviour -/

/-- C5: for a Fixed (`h4si`) block whose rebuilt base64 fits `stored_len`,
`repack` writes exactly the base64 right-padded with ASCII spaces to
`stored_len` bytes into `[offset, offset+stored_len)` (leaving the buffer
length unchanged); if it does not fit, the block is counted as a failure
with a warning and the whole buffer is left untouched; in both cases the
loop continues with the remaining blocks. -/
theorem h4si_block_capacity (container : String) (base : Bytes) (dir : FileMap)
    (st : RepackState) (bi : BlockInfo) (content newB64 : Bytes)
    (hcont : container ≠ "fallen") (hkind : bi.kind ≠ "fallen_text")
    (hreg : regionValid bi base = true)
    (hfile : lookupFile dir bi.out_name = some content)
    (huntouched : isUntouched bi content = false)
    (hbuild : buildB64 bi content = some newB64) :
    (newB64.length ≤ bi.stored_len →
      repackStep container base dir st bi =
        .ok { st with out := h4siWriteRegion st.out bi newB64, ok := st.ok + 1 } ∧
      (newB64 ++ List.replicate (bi.stored_len - newB64.length) 32).length =
        bi.stored_len ∧
      (bi.offset + bi.stored_len ≤ st.out.length →
        pySlice (h4siWriteRegion st.out bi newB64) bi.offset
            (bi.offset + bi.stored_len) =
          newB64 ++ List.replicate (bi.stored_len - newB64.length) 32 ∧
        (h4siWriteRegion st.out bi newB64).length = st.out.length)) ∧
    (bi.stored_len < newB64.length →
      repackStep container base dir st bi =
        .ok { st with fail := st.fail + 1, warnings := st.warnings ++ [bi.index] }) ∧
    (∀ rest st', repackStep container base dir st bi = .ok st' →
      repackGo container base dir (bi :: rest) st =
        repackGo container base dir rest st') := by
  have hpadlen : ∀ (h : newB64.length ≤ bi.stored_len),
      (newB64 ++ List.replicate (bi.stored_len - newB64.length) 32).length =
        bi.stored_len := by
    intro h; simp [List.length_append, List.length_replicate]; omega
  have hstep : ∀ (hfit : ¬ bi.stored_len < newB64.length),
      repackStep container base dir st bi =
        .ok { st with out := h4siWriteRegion st.out bi newB64, ok := st.ok + 1 } := by
    intro hfit
    rw [repackStep, if_neg (by simp [hreg]), hfile]
    simp only [huntouched, Bool.false_eq_true, if_false]
    rw [if_neg (by simp [hcont, hkind]), hbuild]
    simp only [if_neg hfit]
  refine ⟨?_, ?_, ?_⟩
  · intro hle
    refine ⟨hstep (by omega), hpadlen hle, ?_⟩
    intro hbounds
    have hv : (newB64 ++ List.replicate (bi.stored_len - newB64.length) 32).length =
        bi.stored_len := hpadlen hle
    constructor
    · have := setSlice_slice st.out bi.offset (bi.offset + bi.stored_len)
        (newB64 ++ List.replicate (bi.stored_len - newB64.length) 32)
        (by omega) hbounds
      rw [hv] at this
      rw [h4siWriteRegion]
      exact this
    · rw [h4siWriteRegion]
      exact setSlice_length st.out bi.offset (bi.offset + bi.stored_len) _
        (by omega) hbounds (by rw [hv]; omega)
  · intro hgt
    rw [repackStep, if_neg (by simp [hreg]), hfile]
    simp only [huntouched, Bool.false_eq_true, if_false]
    rw [if_neg (by simp [hcont, hkind]), hbuild]
    simp only [if_pos hgt]
  · intro rest st' hstep'
    rw [repackGo, hstep']

/-- Witness for C5: one `raw_gz` block that fits (`AQID` plus two spaces)
and one that does not. -/
theorem h4si_block_capacity_witness :
    buildB64 c5BlockOk c5Content = some (asciiOf "AQID") ∧
    (asciiOf "AQID").length ≤ c5BlockOk.stored_len ∧
    repackStep "h4si" c5Base c5Dir c5State c5BlockOk =
      .ok { c5State with out := h4siWriteRegion c5State.out c5BlockOk (asciiOf "AQID"),
                         ok := 1 } ∧
    pySlice (h4siWriteRegion c5State.out c5BlockOk (asciiOf "AQID")) 2 8 =
      asciiOf "AQID" ++ [32, 32] ∧
    c5BlockFail.stored_len < (asciiOf "AQID").length ∧
    repackStep "h4si" c5Base c5Dir c5State c5BlockFail =
      .ok { c5State with fail := 1, warnings := [1] } := by
  have hok := h4si_block_capacity "h4si" c5Base c5Dir c5State c5BlockOk c5Content
    (asciiOf "AQID") (by decide) (by decide) (by decide) (by decide) (by decide)
    (by decide)
  have hfail := h4si_block_capacity "h4si" c5Base c5Dir c5State c5BlockFail c5Content
    (asciiOf "AQID") (by decide) (by decide) (by decide) (by decide) (by decide)
    (by decide)
  refine ⟨by decide, by decide, (hok.1 (by decide)).1, ?_, by decide,
    hfail.2.1 (by decide)⟩
  have h := ((hok.1 (by decide)).2.2 (by decide)).1
  exact h

/-! ## C2 and C3: the Variant write path's padding bug -/

/-- C2 (code bug): a Variant block whose re-encoded payload (4 bytes) fits
its capacity (6 bytes) is written as an `OK` block, yet the output bytes at
`[offset+payload_prefix_len, offset+stored_len)` are `30 30` (the tail of
the `\x00` text pattern), not the base file's tail bytes `07 07`: the
opaque tail is not preserved. -/
theorem fallen_tail_not_preserved :
    buildFallenPayload c2Content = some [255, 254, 65, 0] ∧
    ([255, 254, 65, 0] : Bytes).length ≤ fallenCapacity c2Block ∧
    repackStep "fallen" c2Base c2Dir c2State c2Block =
      .ok ⟨[255, 254, 65, 0, 92, 120, 48, 48], 1, 0, 0, []⟩ ∧
    pySlice [255, 254, 65, 0, 92, 120, 48, 48] (0 + 6) (0 + 8) = [48, 48] ∧
    pySlice c2Base (0 + 6) (0 + 8) = [7, 7] ∧
    ([48, 48] : Bytes) ≠ [7, 7] :=
  ⟨by decide, by decide, by rfl, by decide, by decide, by decide⟩

/-- C3 (code bug): in the same `OK` Variant write, the bytes at
`[offset, offset+capacity)` are the payload followed by `5C 78` (ASCII
`\x`), not by NUL bytes: the `b"\\x00"` literal pads with a four-character
text pattern.  The region length does come out as exactly `stored_len`. -/
theorem fallen_padding_not_null :
    buildFallenPayload c3Content = some [255, 254, 66, 0] ∧
    ([255, 254, 66, 0] : Bytes).length ≤ fallenCapacity c3Block ∧
    repackStep "fallen" c3Base c3Dir c3State c3Block =
      .ok ⟨[255, 254, 66, 0, 92, 120, 48, 48], 1, 0, 0, []⟩ ∧
    pySlice [255, 254, 66, 0, 92, 120, 48, 48] 0 6 = [255, 254, 66, 0, 92, 120] ∧
    ([255, 254, 66, 0, 92, 120] : Bytes) ≠ [255, 254, 66, 0, 0, 0] ∧
    ([255, 254, 66, 0, 92, 120, 48, 48] : Bytes).length = c3Block.stored_len :=
  ⟨by decide, by decide, by rfl, by decide, by decide, by decide⟩

/-! ## C9: tolerant base64 decoder -/

theorem b64_decode_gz_eq_cascade (s : Bytes) :
    b64_decode_gz s =
      (match b64RawCascade s with
       | none => none
       | some r =>
         if r.length < 10 then none
         else if pySlice r 0 2 ≠ [31, 139] then none
         else some r) := by
  simp only [b64_decode_gz, b64RawCascade]
  cases h0 : pyB64Decode true s with
  | some r => rfl
  | none =>
    cases h1 : trimAfterPadding s with
    | some t =>
      cases h2 : pyB64Decode true t with
      | some r => rfl
      | none => rfl
    | none => rfl

/-- C9 (amended): `b64_decode_gz` runs the strict, trimmed-retry and padded
non-validating decode attempts in order and returns `none` exactly when no
attempt yields output, the output is shorter than 10 bytes, or the output
does not begin with the gzip magic `1F 8B`; in every other case it returns
the decoded bytes. -/
theorem b64_decode_gz_spec (s : Bytes) :
    (b64_decode_gz s = none ↔
      (b64RawCascade s = none ∨
        ∀ r, b64RawCascade s = some r →
          r.length < 10 ∨ pySlice r 0 2 ≠ [31, 139])) ∧
    (∀ r, b64RawCascade s = some r → 10 ≤ r.length → pySlice r 0 2 = [31, 139] →
      b64_decode_gz s = some r) := by
  have key := b64_decode_gz_eq_cascade s
  constructor
  · cases hc : b64RawCascade s with
    | none =>
      rw [hc] at key
      have key2 : b64_decode_gz s = none := key
      simp [key2]
    | some r =>
      rw [hc] at key
      have key2 : b64_decode_gz s =
          (if r.length < 10 then none
           else if pySlice r 0 2 ≠ [31, 139] then none else some r) := key
      constructor
      · intro hnone
        rw [key2] at hnone
        right
        intro r' hr'
        obtain rfl : r = r' := by injection hr'
        by_cases h10 : r.length < 10
        · exact Or.inl h10
        · rw [if_neg h10] at hnone
          by_cases hmag : pySlice r 0 2 ≠ [31, 139]
          · exact Or.inr hmag
          · rw [if_neg hmag] at hnone
            exact absurd hnone (by simp)
      · intro h
        rcases h with h | h
        · exact Option.noConfusion h
        · rcases h r rfl with h10 | hmag
          · rw [key2, if_pos h10]
          · rw [key2]
            by_cases h10 : r.length < 10
            · rw [if_pos h10]
            · rw [if_neg h10, if_pos hmag]
  · intro r hr h10 hmag
    rw [hr] at key
    have key2 : b64_decode_gz s =
        (if r.length < 10 then none
         else if pySlice r 0 2 ≠ [31, 139] then none else some r) := key
    rw [key2, if_neg (by omega), if_neg (by simp [hmag])]

/-- Counterexample for C9 as stated: on `"H4s="` the strict attempt decodes
to the two bytes `1F 8B` — output that does begin with the gzip magic — yet
`b64_decode_gz` returns `none` (the undocumented 10-byte minimum). -/
theorem b64_decode_gz_short_gzip_rejected :
    pyB64Decode true (asciiOf "H4s=") = some [31, 139] ∧
    b64RawCascade (asciiOf "H4s=") = some [31, 139] ∧
    pySlice ([31, 139] : Bytes) 0 2 = [31, 139] ∧
    b64_decode_gz (asciiOf "H4s=") = none :=
  ⟨by decide, by decide, by decide, by decide⟩

/-- Witness for C9 (amended) on a 16-character input decoding to 12 bytes
with the gzip magic. -/
theorem b64_decode_gz_spec_witness :
    b64RawCascade (asciiOf "H4sIAAAAAAAAAAAA") =
      some [31, 139, 8, 0, 0, 0, 0, 0, 0, 0, 0, 0] ∧
    10 ≤ ([31, 139, 8, 0, 0, 0, 0, 0, 0, 0, 0, 0] : Bytes).length ∧
    pySlice ([31, 139, 8, 0, 0, 0, 0, 0, 0, 0, 0, 0] : Bytes) 0 2 = [31, 139] ∧
    b64_decode_gz (asciiOf "H4sIAAAAAAAAAAAA") =
      some [31, 139, 8, 0, 0, 0, 0, 0, 0, 0, 0, 0] := by
  refine ⟨by decide, by decide, by decide, ?_⟩
  exact (b64_decode_gz_spec (asciiOf "H4sIAAAAAAAAAAAA")).2 _ (by decide) (by decide)
    (by decide)

/-! ## C4: extraction failure policy for undecodable Fixed segments -/

theorem extractH4siSeg_skip_decodes (data : Bytes) (idx : Nat)
    (seg : Nat × Nat × Bytes) (h : extractH4siSeg data idx seg = .skip) :
    h4siSegDecodes seg = false := by
  obtain ⟨off, len, b⟩ := seg
  rw [extractH4siSeg] at h
  cases hb : b64_decode_gz b with
  | none => simp [h4siSegDecodes, hb]
  | some gz =>
    simp only [hb] at h
    cases hg : gunzip gz with
    | none => simp only [hg] at h; exact SegResult.noConfusion h
    | some payload =>
      simp only [hg] at h
      by_cases hp : payload.isEmpty
      · simp [h4siSegDecodes, hb, hg, hp]
      · rw [if_neg (by simp [hp])] at h
        exfalso
        rcases hdec : utf16leDecodeStrict payload with _ | txt
        · simp only [hdec] at h; exact SegResult.noConfusion h
        · simp only [hdec] at h
          rcases henc : utf16leEncode txt with _ | fb
          · simp only [henc] at h; exact SegResult.noConfusion h
          · simp only [henc] at h; exact SegResult.noConfusion h

theorem extractH4siSeg_ok_decodes (data : Bytes) (idx : Nat)
    (seg : Nat × Nat × Bytes) (bi : BlockInfo) (entries : FileMap)
    (h : extractH4siSeg data idx seg = .ok bi entries) :
    h4siSegDecodes seg = true ∧ bi.offset = seg.1 ∧ bi.stored_len = seg.2.1 ∧
      (bi.kind = "text" ∨ bi.kind = "binary") := by
  obtain ⟨off, len, b⟩ := seg
  rw [extractH4siSeg] at h
  cases hb : b64_decode_gz b with
  | none => simp only [hb] at h; exact SegResult.noConfusion h
  | some gz =>
    simp only [hb] at h
    cases hg : gunzip gz with
    | none => simp only [hg] at h; exact SegResult.noConfusion h
    | some payload =>
      simp only [hg] at h
      by_cases hp : payload.isEmpty
      · rw [if_pos (by simp [hp])] at h; exact SegResult.noConfusion h
      · rw [if_neg (by simp [hp])] at h
        refine ⟨by simp [h4siSegDecodes, hb, hg, hp], ?_⟩
        rcases hdec : utf16leDecodeStrict payload with _ | txt
        · simp only [hdec] at h
          injection h with h1 h2
          subst h1
          exact ⟨rfl, rfl, Or.inr rfl⟩
        · simp only [hdec] at h
          rcases henc : utf16leEncode txt with _ | fb
          · simp only [henc] at h; exact SegResult.noConfusion h
          · simp only [henc] at h
            injection h with h1 h2
            subst h1
            exact ⟨rfl, rfl, Or.inl rfl⟩

theorem extractH4siGo_blocks (data : Bytes) :
    ∀ (segs : List (Nat × Nat × Bytes)) (idx : Nat) (bis : List BlockInfo)
      (fm : FileMap),
      extractH4siGo data segs idx = some (bis, fm) →
      ((bis.map fun bi => (bi.offset, bi.stored_len)) =
        ((segs.filter h4siSegDecodes).map fun seg => (seg.1, seg.2.1))) ∧
      ∀ bi ∈ bis, bi.kind ≠ "raw_gz" := by
  intro segs
  induction segs with
  | nil =>
    intro idx bis fm h
    rw [extractH4siGo] at h
    obtain ⟨rfl, rfl⟩ : ([] : List BlockInfo) = bis ∧ ([] : FileMap) = fm := by
      injection h with h'
      injection h' with h1 h2
      exact ⟨h1, h2⟩
    simp
  | cons seg rest ih =>
    intro idx bis fm h
    rw [extractH4siGo] at h
    cases hseg : extractH4siSeg data idx seg with
    | abort => rw [hseg] at h; exact Option.noConfusion h
    | skip =>
      rw [hseg] at h
      have hdec := extractH4siSeg_skip_decodes data idx seg hseg
      obtain ⟨h1, h2⟩ := ih idx bis fm h
      rw [List.filter_cons_of_neg (by simp [hdec])]
      exact ⟨h1, h2⟩
    | ok bi entries =>
      rw [hseg] at h
      rw [Option.map_eq_some'] at h
      obtain ⟨⟨bis', fm'⟩, hrec, heq⟩ := h
      obtain ⟨rfl, rfl⟩ : bi :: bis' = bis ∧ entries ++ fm' = fm := by
        injection heq with h1 h2
        exact ⟨h1, h2⟩
      obtain ⟨hdec, hoff, hlen, hkind⟩ :=
        extractH4siSeg_ok_decodes data idx seg bi entries hseg
      obtain ⟨h1, h2⟩ := ih (idx + 1) bis' fm' hrec
      rw [List.filter_cons_of_pos (by simp [hdec])]
      refine ⟨?_, ?_⟩
      · simp only [List.map_cons, h1, hoff, hlen]
      · intro b hb
        simp only [List.mem_cons] at hb
        rcases hb with rfl | hb
        · rcases hkind with hk | hk <;> simp [hk]
        · exact h2 b hb

/-- C4 (amended): during Fixed-container extraction, exactly the scanned
segments whose tolerant base64 decode and gzip decompression succeed with a
nonempty payload are recorded in the manifest; a segment that fails decoding
is silently skipped (no block, no note, no file), and no `raw_gz` block is
ever produced. -/
theorem h4si_failed_segments_skipped (data : Bytes) (man : Manifest)
    (dir : FileMap) (hmagic : ¬ data.take 6 = FALLEN_MAGIC)
    (hext : extract data = some (man, dir)) :
    ((man.blocks.map fun bi => (bi.offset, bi.stored_len)) =
      (((scan_blocks data).filter h4siSegDecodes).map fun seg => (seg.1, seg.2.1))) ∧
    ∀ bi ∈ man.blocks, bi.kind ≠ "raw_gz" := by
  rw [extract, if_neg hmagic, Option.map_eq_some'] at hext
  obtain ⟨⟨bis, fm⟩, hgo, heq⟩ := hext
  obtain ⟨h1, h2⟩ := extractH4siGo_blocks data (scan_blocks data) 0 bis fm hgo
  have hman : man.blocks = bis := by
    have := congrArg Prod.fst heq
    simp at this
    rw [← this]
  rw [hman]
  exact ⟨h1, h2⟩

/-- Counterexample for C4 as stated: `c4Data` has one scanned segment, its
decode fails, and the resulting manifest records no block at all (and
writes no file) — rather than recording a `raw_gz` block with a note. -/
theorem h4si_decode_failure_dropped :
    (scan_blocks c4Data).length = 1 ∧
    b64_decode_gz (asciiOf "H4sIAAAAAAAAAAAAA") = none ∧
    extract c4Data = some (⟨17, sha1Hex c4Data, "h4si", []⟩, []) :=
  ⟨by decide, by decide, by decide⟩

/-- Witness for C4 (amended) on a concrete undecodable segment. -/
theorem h4si_failed_segments_skipped_witness :
    ¬ c4wData.take 6 = FALLEN_MAGIC ∧
    extract c4wData = some (c4wExt.1, c4wExt.2) ∧
    ((c4wExt.1.blocks.map fun bi => (bi.offset, bi.stored_len)) =
      (((scan_blocks c4wData).filter h4siSegDecodes).map fun seg => (seg.1, seg.2.1))) ∧
    ∀ bi ∈ c4wExt.1.blocks, bi.kind ≠ "raw_gz" := by
  have h1 : ¬ c4wData.take 6 = FALLEN_MAGIC := by decide
  have h2 : extract c4wData = some (c4wExt.1, c4wExt.2) := by decide
  have h := h4si_failed_segments_skipped c4wData c4wExt.1 c4wExt.2 h1 h2
  exact ⟨h1, h2, h.1, h.2⟩

/-! ## The scan loop: `findFrom` and `scanPosGo` -/

theorem findFrom_some (data pat : Bytes) (pos off : Nat)
    (h : findFrom data pat pos = some off) :
    pos ≤ off ∧ off < data.length ∧ matchAt data pat off = true := by
  simp [findFrom] at h
  exact ⟨h.1.1, h.2.1, h.1.2⟩

theorem findFrom_none (data pat : Bytes) (pos : Nat)
    (h : findFrom data pat pos = none) :
    ∀ i, pos ≤ i → i < data.length → matchAt data pat i = false := by
  simp [findFrom] at h
  intro i h1 h2
  exact h i h2 h1

theorem findFrom_least (data pat : Bytes) (pos off : Nat)
    (h : findFrom data pat pos = some off) :
    ∀ i, pos ≤ i → matchAt data pat i = true → off ≤ i := by
  simp [findFrom] at h
  intro i hpos hmatch
  by_contra hlt
  push_neg at hlt
  rcases h.2.2 i hlt with hc | hc
  · omega
  · rw [hmatch] at hc
    exact Bool.noConfusion hc

theorem scanPosGo_mem (data pat : Bytes) :
    ∀ (fuel pos off' : Nat), off' ∈ scanPosGo data pat fuel pos →
      pos ≤ off' ∧ off' < data.length ∧ matchAt data pat off' = true := by
  intro fuel
  induction fuel with
  | zero => intro pos off' h; rw [scanPosGo] at h; exact absurd h (List.not_mem_nil _)
  | succ fuel ih =>
    intro pos off' h
    rw [scanPosGo] at h
    cases hf : findFrom data pat pos with
    | none => rw [hf] at h; exact absurd h (List.not_mem_nil _)
    | some off =>
      rw [hf] at h
      have hfacts := findFrom_some data pat pos off hf
      rcases List.mem_cons.mp h with rfl | ht
      · exact hfacts
      · have := ih (off + pat.length) off' ht
        exact ⟨by omega, this.2.1, this.2.2⟩

theorem scanPosGo_chain (data pat : Bytes) :
    ∀ (fuel pos : Nat),
      List.Chain' (fun a b => a + pat.length ≤ b) (scanPosGo data pat fuel pos) := by
  intro fuel
  induction fuel with
  | zero => intro pos; rw [scanPosGo]; exact List.chain'_nil
  | succ fuel ih =>
    intro pos
    rw [scanPosGo]
    cases hf : findFrom data pat pos with
    | none => exact List.chain'_nil
    | some off =>
      refine List.chain'_cons'.mpr ⟨?_, ih (off + pat.length)⟩
      intro y hy
      have hmem : y ∈ scanPosGo data pat fuel (off + pat.length) :=
        List.mem_of_mem_head? (by simp [hy])
      exact (scanPosGo_mem data pat fuel (off + pat.length) y hmem).1

/-! ## The sentinel cannot overlap itself -/

theorem matchAt_spec (data pat : Bytes) (i : Nat) (hpat : pat ≠ [])
    (h : matchAt data pat i = true) :
    i + pat.length ≤ data.length ∧
      ∀ k, k < pat.length → data.getD (i + k) 0 = pat.getD k 0 := by
  rw [matchAt, beq_iff_eq] at h
  have hlen : ((data.drop i).take pat.length).length = pat.length := by rw [h]
  rw [List.length_take, List.length_drop] at hlen
  have hple : 0 < pat.length := List.length_pos.mpr hpat
  constructor
  · omega
  · intro k hk
    have h1 : pat.getD k 0 = ((data.drop i).take pat.length).getD k 0 := by rw [h]
    rw [h1]
    simp only [List.getD_eq_getElem?_getD]
    rw [List.getElem?_take, if_pos hk, List.getElem?_drop]

theorem sentinel_no_overlap (data : Bytes) (i j : Nat)
    (hi : matchAt data FALLEN_SENTINEL i = true)
    (hj : matchAt data FALLEN_SENTINEL j = true) (hij : i < j) :
    i + 8 ≤ j := by
  by_contra hclose
  push_neg at hclose
  have hpat : FALLEN_SENTINEL ≠ [] := by decide
  have hlen8 : FALLEN_SENTINEL.length = 8 := by decide
  obtain ⟨-, hgi⟩ := matchAt_spec data FALLEN_SENTINEL i hpat hi
  obtain ⟨-, hgj⟩ := matchAt_spec data FALLEN_SENTINEL j hpat hj
  have hd : j - i < 8 := by omega
  have h1 : data.getD (i + (j - i)) 0 = FALLEN_SENTINEL.getD (j - i) 0 :=
    hgi (j - i) (by omega)
  have h2 : data.getD (j + 0) 0 = FALLEN_SENTINEL.getD 0 0 := hgj 0 (by omega)
  have hji : i + (j - i) = j + 0 := by omega
  rw [hji, h2] at h1
  have hd1 : 1 ≤ j - i := by omega
  interval_cases h : (j - i) <;> revert h1 <;> decide

/-! ## Fallback positions are exactly the sentinel occurrences -/

theorem filter_ge_cons_of_least (l : List Nat) (pos off : Nat)
    (hs : List.Pairwise (· < ·) l) (hmem : off ∈ l) (hpos : pos ≤ off)
    (hleast : ∀ x ∈ l, pos ≤ x → off ≤ x)
    (hgap : ∀ x ∈ l, off < x → off + 8 ≤ x) :
    l.filter (fun x => pos ≤ x) = off :: l.filter (fun x => off + 8 ≤ x) := by
  induction l with
  | nil => exact absurd hmem (List.not_mem_nil _)
  | cons y t ih =>
    obtain ⟨hyt, hst⟩ := List.pairwise_cons.mp hs
    rcases List.mem_cons.mp hmem with rfl | hmt
    · rw [List.filter_cons_of_pos (by simp [hpos])]
      rw [List.filter_cons_of_neg (by simp)]
      congr 1
      have hkeep1 : ∀ x ∈ t, (decide (pos ≤ x)) = true := by
        intro x hx
        have := hyt x hx
        simp; omega
      have hkeep2 : ∀ x ∈ t, (decide (off + 8 ≤ x)) = true := by
        intro x hx
        have h1 := hyt x hx
        have h2 := hgap x (List.mem_cons_of_mem _ hx) h1
        simp; omega
      rw [List.filter_eq_self.mpr hkeep1, List.filter_eq_self.mpr hkeep2]
    · have hyoff : y < off := hyt off hmt
      have hynotpos : ¬ pos ≤ y := by
        intro hcon
        have := hleast y (List.mem_cons_self _ _) hcon
        omega
      rw [List.filter_cons_of_neg (by simp [hynotpos])]
      rw [List.filter_cons_of_neg (by simp; omega)]
      exact ih hst hmt
        (fun x hx hpx => hleast x (List.mem_cons_of_mem _ hx) hpx)
        (fun x hx hox => hgap x (List.mem_cons_of_mem _ hx) hox)

theorem scanPosGo_sentinel_eq (data : Bytes) :
    ∀ (fuel pos : Nat), data.length + 1 ≤ fuel + pos →
      scanPosGo data FALLEN_SENTINEL fuel pos =
        (sentinelOccurrences data).filter (fun x => pos ≤ x) := by
  intro fuel
  induction fuel with
  | zero =>
    intro pos h
    rw [scanPosGo]
    symm
    rw [List.filter_eq_nil_iff]
    intro x hx
    rw [sentinelOccurrences, List.mem_filter, List.mem_range] at hx
    simp only [decide_eq_true_eq]
    omega
  | succ fuel ih =>
    intro pos hfuel
    rw [scanPosGo]
    cases hf : findFrom data FALLEN_SENTINEL pos with
    | none =>
      have hempty : ∀ x ∈ sentinelOccurrences data, ¬ (decide (pos ≤ x)) = true := by
        intro x hx
        rw [sentinelOccurrences, List.mem_filter, List.mem_range] at hx
        simp only [decide_eq_true_eq]
        intro hpx
        have := findFrom_none data FALLEN_SENTINEL pos hf x hpx hx.1
        rw [this] at hx
        exact Bool.noConfusion hx.2
      rw [List.filter_eq_nil_iff.mpr hempty]
    | some off =>
      have hfacts := findFrom_some data FALLEN_SENTINEL pos off hf
      show off :: scanPosGo data FALLEN_SENTINEL fuel (off + FALLEN_SENTINEL.length) = _
      have hlen8 : FALLEN_SENTINEL.length = 8 := by decide
      rw [hlen8]
      have hsorted : List.Pairwise (· < ·) (sentinelOccurrences data) :=
        (List.pairwise_lt_range _).filter _
      have hmem : off ∈ sentinelOccurrences data := by
        rw [sentinelOccurrences, List.mem_filter, List.mem_range]
        exact ⟨hfacts.2.1, by simp [hfacts.2.2]⟩
      have hocc_match : ∀ x ∈ sentinelOccurrences data,
          matchAt data FALLEN_SENTINEL x = true := by
        intro x hx
        rw [sentinelOccurrences, List.mem_filter] at hx
        simpa using hx.2
      rw [filter_ge_cons_of_least (sentinelOccurrences data) pos off hsorted hmem
        hfacts.1
        (fun x hx hpx => findFrom_least data FALLEN_SENTINEL pos off hf x hpx
          (hocc_match x hx))
        (fun x hx hox => sentinel_no_overlap data off x (hocc_match off hmem)
          (hocc_match x hx) hox)]
      rw [ih (off + 8) (by omega)]

theorem scanPositions_sentinel_eq (data : Bytes) :
    scanPositions data FALLEN_SENTINEL = sentinelOccurrences data := by
  rw [scanPositions, scanPosGo_sentinel_eq data (data.length + 1) 0 (by omega)]
  exact List.filter_eq_self.mpr (fun x _ => by simp)

/-! ## C7 and C8: the fallback sentinel scan -/

theorem fallenFallbackSegs_length (data : Bytes) :
    ∀ (ps : List Nat), (fallenFallbackSegs data ps).length = ps.length := by
  intro ps
  induction ps with
  | nil => rfl
  | cons off t ih =>
    cases t with
    | nil => rfl
    | cons off2 t' =>
      rw [fallenFallbackSegs]
      simp only [List.length_cons]
      simp only [List.length_cons] at ih
      omega

theorem fallenFallbackSegs_offsets (data : Bytes) :
    ∀ (ps : List Nat),
      ((fallenFallbackSegs data ps).map fun s => s.1) = ps.map (· + 8) := by
  intro ps
  induction ps with
  | nil => rfl
  | cons off t ih =>
    cases t with
    | nil => rfl
    | cons off2 t' =>
      rw [fallenFallbackSegs]
      simp only [List.map_cons]
      simp only [List.map_cons] at ih
      rw [ih]

/-- C7: for a Variant file whose header table is absent (file shorter than
24 bytes) or corrupted by an absurd entry count, `scan_fallen_segments`
falls back to pure sentinel scanning and returns exactly one segment per
sentinel occurrence: the i-th segment starts 8 bytes after the i-th
occurrence and ends at the next occurrence (end of file for the last), so
the segment count equals the occurrence count. -/
theorem fallen_scan_fallback_occurrences (data : Bytes)
    (hmagic : data.take 6 = FALLEN_MAGIC)
    (hcorrupt : data.length < 24 ∨ 65536 < readU32le data 16) :
    scan_fallen_segments data =
      fallenFallbackSegs data (sentinelOccurrences data) ∧
    (scan_fallen_segments data).length = (sentinelOccurrences data).length := by
  have htable : fallenTableSegs data = [] := by
    rw [fallenTableSegs]
    rcases hcorrupt with hshort | hcount
    · rw [if_neg (by omega)]
    · by_cases h24 : 24 ≤ data.length
      · rw [if_pos h24, if_neg (by omega)]
      · rw [if_neg h24]
  have hscan : scan_fallen_segments data =
      fallenFallbackSegs data (scanPositions data FALLEN_SENTINEL) := by
    rw [scan_fallen_segments, if_neg (by simp [hmagic]), htable]
    rw [if_neg (by simp)]
  rw [hscan, scanPositions_sentinel_eq]
  exact ⟨rfl, fallenFallbackSegs_length data _⟩

/-- Witness for C7: a 12-byte Variant file (no header table) with one
sentinel occurrence at offset 0 produces the single segment `(8, 4)`. -/
theorem fallen_scan_fallback_occurrences_witness :
    c7wData.take 6 = FALLEN_MAGIC ∧
    (c7wData.length < 24 ∨ 65536 < readU32le c7wData 16) ∧
    scan_fallen_segments c7wData =
      fallenFallbackSegs c7wData (sentinelOccurrences c7wData) ∧
    (scan_fallen_segments c7wData).length = (sentinelOccurrences c7wData).length ∧
    sentinelOccurrences c7wData = [0] ∧
    scan_fallen_segments c7wData = [(8, 4, asciiOf "ABCD")] := by
  have h1 : c7wData.take 6 = FALLEN_MAGIC := by decide
  have h2 : c7wData.length < 24 ∨ 65536 < readU32le c7wData 16 := Or.inl (by decide)
  have h := fallen_scan_fallback_occurrences c7wData h1 h2
  exact ⟨h1, h2, h.1, h.2, by decide, by decide⟩

/-- Counterexample for C8 as stated: the header-table path of
`scan_fallen_segments` returns segments in table-entry order, which for
`c8Data` is the descending offset list `[76, 64]`. -/
theorem fallen_table_order_not_ascending :
    ((scan_fallen_segments c8Data).map fun s => s.1) = [76, 64] ∧ (64 : Nat) < 76 :=
  ⟨by decide, by decide⟩

/-- C8 (amended): the sentinel-scan fallback path returns its segments in
strictly ascending file-offset order (the header-table path returns them in
table-entry order instead). -/
theorem fallen_fallback_sorted (data : Bytes)
    (hmagic : data.take 6 = FALLEN_MAGIC) (htable : fallenTableSegs data = []) :
    scan_fallen_segments data =
      fallenFallbackSegs data (scanPositions data FALLEN_SENTINEL) ∧
    List.Sorted (· < ·) ((scan_fallen_segments data).map fun s => s.1) := by
  have hscan : scan_fallen_segments data =
      fallenFallbackSegs data (scanPositions data FALLEN_SENTINEL) := by
    rw [scan_fallen_segments, if_neg (by simp [hmagic]), htable]
    rw [if_neg (by simp)]
  refine ⟨hscan, ?_⟩
  rw [hscan, fallenFallbackSegs_offsets]
  have hchain : List.Chain' (fun a b => a + FALLEN_SENTINEL.length ≤ b)
      (scanPositions data FALLEN_SENTINEL) := by
    rw [scanPositions]
    exact scanPosGo_chain data FALLEN_SENTINEL _ _
  have hlt : List.Chain' (· < ·) (scanPositions data FALLEN_SENTINEL) := by
    refine hchain.imp ?_
    intro a b hab
    have : (8 : Nat) = FALLEN_SENTINEL.length := by decide
    omega
  have hpw : List.Pairwise (· < ·) (scanPositions data FALLEN_SENTINEL) :=
    List.chain'_iff_pairwise.mp hlt
  rw [List.Sorted]
  rw [List.pairwise_map]
  exact hpw.imp (by omega)

/-- Witness for C8 (amended): a fallback scan with sentinels at offsets 0
and 10 returns segments at ascending offsets `[8, 18]`. -/
theorem fallen_fallback_sorted_witness :
    c8wData.take 6 = FALLEN_MAGIC ∧ fallenTableSegs c8wData = [] ∧
    scan_fallen_segments c8wData =
      fallenFallbackSegs c8wData (scanPositions c8wData FALLEN_SENTINEL) ∧
    List.Sorted (· < ·) ((scan_fallen_segments c8wData).map fun s => s.1) ∧
    ((scan_fallen_segments c8wData).map fun s => s.1) = [8, 18] := by
  have h1 : c8wData.take 6 = FALLEN_MAGIC := by decide
  have h2 : fallenTableSegs c8wData = [] := by decide
  have h := fallen_fallback_sorted c8wData h1 h2
  exact ⟨h1, h2, h.1, h.2, by decide⟩

/-! ## C1: block file names are collision-free -/

theorem decDigits_go_digits :
    ∀ (fuel m : Nat), ∀ c ∈ decDigits.go fuel m, 48 ≤ c ∧ c ≤ 57 := by
  intro fuel
  induction fuel with
  | zero => intro m c hc; rw [decDigits.go] at hc; exact absurd hc (List.not_mem_nil _)
  | succ fuel ih =>
    intro m c hc
    rw [decDigits.go] at hc
    by_cases hm : m = 0
    · rw [if_pos hm] at hc; exact absurd hc (List.not_mem_nil _)
    · rw [if_neg hm] at hc
      rcases List.mem_append.mp hc with h | h
      · exact ih (m / 10) c h
      · rcases List.mem_singleton.mp h with rfl
        constructor <;> omega

theorem decDigits_digits (n : Nat) : ∀ c ∈ decDigits n, 48 ≤ c ∧ c ≤ 57 := by
  intro c hc
  cases n with
  | zero =>
    rw [decDigits] at hc
    rcases List.mem_singleton.mp hc with rfl
    omega
  | succ n => exact decDigits_go_digits (n + 1) (n + 1) c hc

theorem digitsVal_append_digit (l : List Nat) (d : Nat) :
    digitsVal (l ++ [d]) = 10 * digitsVal l + (d - 48) := by
  rw [digitsVal, digitsVal, List.foldl_append]
  simp only [List.foldl_cons, List.foldl_nil]
  omega

theorem decDigits_go_val :
    ∀ (fuel m : Nat), m < 10 ^ fuel → digitsVal (decDigits.go fuel m) = m := by
  intro fuel
  induction fuel with
  | zero => intro m hm; interval_cases m; rfl
  | succ fuel ih =>
    intro m hm
    rw [decDigits.go]
    by_cases hm0 : m = 0
    · rw [if_pos hm0, hm0]; rfl
    · rw [if_neg hm0, digitsVal_append_digit]
      have hdiv : m / 10 < 10 ^ fuel := by
        apply Nat.div_lt_of_lt_mul
        rw [pow_succ] at hm
        omega
      rw [ih (m / 10) hdiv]
      omega

theorem decDigits_val (n : Nat) : digitsVal (decDigits n) = n := by
  cases n with
  | zero => rfl
  | succ n =>
    rw [decDigits]
    exact decDigits_go_val (n + 1) (n + 1) (Nat.lt_pow_self (by norm_num) _)

theorem digitsVal_replicate_zero (k : Nat) (l : List Nat) :
    digitsVal (List.replicate k 48 ++ l) = digitsVal l := by
  induction k with
  | zero => rw [List.replicate, List.nil_append]
  | succ k ih =>
    rw [List.replicate, List.cons_append, digitsVal, List.foldl_cons]
    have h0 : (0 : Nat) * 10 + (48 - 48) = 0 := by omega
    rw [h0]
    exact ih

theorem pad2_val (n : Nat) : digitsVal (pad2 n) = n := by
  rw [pad2, digitsVal_replicate_zero, decDigits_val]

theorem pad2_digits (n : Nat) : ∀ c ∈ pad2 n, 48 ≤ c ∧ c ≤ 57 := by
  intro c hc
  rw [pad2] at hc
  rcases List.mem_append.mp hc with h | h
  · rcases List.eq_of_mem_replicate h with rfl; omega
  · exact decDigits_digits n c h

theorem digits_sep_inj :
    ∀ (d1 d2 r1 r2 : List Nat), (∀ c ∈ d1, c ≠ 95) → (∀ c ∈ d2, c ≠ 95) →
      d1 ++ 95 :: r1 = d2 ++ 95 :: r2 → d1 = d2 ∧ r1 = r2 := by
  intro d1
  induction d1 with
  | nil =>
    intro d2 r1 r2 _ h2 h
    cases d2 with
    | nil =>
      rw [List.nil_append, List.nil_append] at h
      injection h with _ h'
      exact ⟨rfl, h'⟩
    | cons c t =>
      rw [List.nil_append, List.cons_append] at h
      injection h with hc _
      exact absurd hc.symm (h2 c (List.mem_cons_self _ _))
  | cons c t ih =>
    intro d2 r1 r2 h1 h2 h
    cases d2 with
    | nil =>
      rw [List.nil_append, List.cons_append] at h
      injection h with hc _
      exact absurd hc (h1 c (List.mem_cons_self _ _))
    | cons c' t' =>
      rw [List.cons_append, List.cons_append] at h
      injection h with hc h'
      obtain ⟨ht, hr⟩ := ih t' r1 r2
        (fun x hx => h1 x (List.mem_cons_of_mem _ hx))
        (fun x hx => h2 x (List.mem_cons_of_mem _ hx)) h'
      exact ⟨by rw [hc, ht], hr⟩

theorem blockPath_inj (i j off off' : Nat) (ei ej : String) (hne : i ≠ j) :
    asciiOf "blocks/" ++ blockName i off ei ≠
      asciiOf "blocks/" ++ blockName j off' ej := by
  intro h
  have h' : blockName i off ei = blockName j off' ej := List.append_cancel_left h
  rw [blockName, blockName] at h'
  simp only [List.append_assoc] at h'
  have h'' : pad2 i ++ (asciiOf "_off_" ++ (hex8 off ++ asciiOf ei)) =
      pad2 j ++ (asciiOf "_off_" ++ (hex8 off' ++ asciiOf ej)) :=
    List.append_cancel_left h'
  have hU : asciiOf "_off_" = 95 :: asciiOf "off_" := rfl
  rw [hU] at h''
  simp only [List.cons_append] at h''
  obtain ⟨hpad, -⟩ := digits_sep_inj (pad2 i) (pad2 j) _ _
    (fun c hc => by have := pad2_digits i c hc; omega)
    (fun c hc => by have := pad2_digits j c hc; omega) h''
  have := pad2_val i
  rw [hpad, pad2_val] at this
  exact hne this.symm

theorem origPath_ne_blockPath (i off j off' : Nat) (e : String) :
    asciiOf "orig_regions/" ++ origName i off ≠
      asciiOf "blocks/" ++ blockName j off' e := by
  intro h
  have ho : asciiOf "orig_regions/" = 111 :: asciiOf "rig_regions/" := rfl
  have hb : asciiOf "blocks/" = 98 :: asciiOf "locks/" := rfl
  rw [ho, hb] at h
  simp only [List.cons_append] at h
  injection h with h1 _
  exact absurd h1 (by omega)

theorem lookupFile_cons (n : List Nat) (c : Bytes) (rest : FileMap)
    (name : List Nat) :
    lookupFile ((n, c) :: rest) name =
      if n = name then some c else lookupFile rest name := rfl

/-- Lookup skips entries whose keys differ from the name sought. -/
theorem lookupFile_append_fresh (entries fm : FileMap) (nm : List Nat)
    (hfresh : ∀ p ∈ entries, p.1 ≠ nm) :
    lookupFile (entries ++ fm) nm = lookupFile fm nm := by
  induction entries with
  | nil => rw [List.nil_append]
  | cons p rest ih =>
    obtain ⟨n, c⟩ := p
    rw [List.cons_append, lookupFile_cons]
    rw [if_neg (hfresh (n, c) (List.mem_cons_self _ _))]
    exact ih (fun q hq => hfresh q (List.mem_cons_of_mem _ hq))

/-! ## C1: what one extracted segment contributes -/

theorem extractFallenSeg_spec (idx : Nat) (seg : Nat × Nat × Bytes)
    (bi : BlockInfo) (entries : FileMap)
    (h : extractFallenSeg idx seg = some (bi, entries)) :
    bi.index = idx ∧ bi.offset = seg.1 ∧ bi.stored_len = seg.2.1 ∧
      bi.region_sha1 = sha1Hex seg.2.2 ∧
      ∃ ext fb, bi.out_name = asciiOf "blocks/" ++ blockName idx seg.1 ext ∧
        bi.file_sha1 = sha1Hex fb ∧
        entries = [(asciiOf "orig_regions/" ++ origName idx seg.1, seg.2.2),
                   (bi.out_name, fb)] := by
  obtain ⟨off, len, pb⟩ := seg
  rw [extractFallenSeg] at h
  rcases hjson : pyJsonLoads (fallenTrimJsonText pb).1 with _ | obj
  · simp only [hjson] at h
    rcases henc : utf16leEncode (fallenTrimJsonText pb).1 with _ | fb
    · simp only [henc] at h; exact Option.noConfusion h
    · simp only [henc] at h
      injection h with h'
      injection h' with hbi hent
      subst hbi
      exact ⟨rfl, rfl, rfl, rfl, ".txt", fb, rfl, rfl, by rw [← hent]⟩
  · simp only [hjson] at h
    rcases henc : utf16leEncode (dumpPretty 0 obj) with _ | fb
    · simp only [henc] at h; exact Option.noConfusion h
    · simp only [henc] at h
      injection h with h'
      injection h' with hbi hent
      subst hbi
      exact ⟨rfl, rfl, rfl, rfl, ".json", fb, rfl, rfl, by rw [← hent]⟩

theorem extractH4siSeg_spec (data : Bytes) (idx : Nat) (seg : Nat × Nat × Bytes)
    (bi : BlockInfo) (entries : FileMap)
    (h : extractH4siSeg data idx seg = .ok bi entries) :
    bi.index = idx ∧ bi.offset = seg.1 ∧ bi.stored_len = seg.2.1 ∧
      bi.region_sha1 = sha1Hex (pySlice data seg.1 (seg.1 + seg.2.1)) ∧
      ∃ ext fb, bi.out_name = asciiOf "blocks/" ++ blockName idx seg.1 ext ∧
        bi.file_sha1 = sha1Hex fb ∧
        entries = [(asciiOf "orig_regions/" ++ origName idx seg.1,
                    pySlice data seg.1 (seg.1 + seg.2.1)),
                   (bi.out_name, fb)] := by
  obtain ⟨off, len, b⟩ := seg
  rw [extractH4siSeg] at h
  rcases hb : b64_decode_gz b with _ | gz
  · simp only [hb] at h; exact SegResult.noConfusion h
  · simp only [hb] at h
    rcases hg : gunzip gz with _ | payload
    · simp only [hg] at h; exact SegResult.noConfusion h
    · simp only [hg] at h
      by_cases hp : payload.isEmpty
      · rw [if_pos (by simp [hp])] at h; exact SegResult.noConfusion h
      · rw [if_neg (by simp [hp])] at h
        rcases hdec : utf16leDecodeStrict payload with _ | txt
        · simp only [hdec] at h
          injection h with h1 h2
          subst h1
          exact ⟨rfl, rfl, rfl, rfl, ".bin", payload, rfl, rfl, by rw [← h2]⟩
        · simp only [hdec] at h
          rcases henc : utf16leEncode txt with _ | fb
          · simp only [henc] at h; exact SegResult.noConfusion h
          · simp only [henc] at h
            injection h with h1 h2
            subst h1
            exact ⟨rfl, rfl, rfl, rfl,
              if (pyJsonLoads txt).isSome = true then ".json" else ".txt", fb,
              rfl, rfl, by rw [← h2]⟩

/-! ## C1: scanned Variant segments carry slices of the base file -/

theorem fallback_wf (data : Bytes) :
    ∀ (ps : List Nat), (∀ off ∈ ps, off + 8 ≤ data.length) →
      List.Chain' (fun a b => a + 8 ≤ b) ps →
      ∀ seg ∈ fallenFallbackSegs data ps,
        seg.2.2 = pySlice data seg.1 (seg.1 + seg.2.1) := by
  intro ps
  induction ps with
  | nil => intro _ _ seg hseg; exact absurd hseg (List.not_mem_nil _)
  | cons off t ih =>
    intro hbound hchain seg hseg
    cases t with
    | nil =>
      rw [fallenFallbackSegs] at hseg
      rcases List.mem_singleton.mp hseg with rfl
      have hb := hbound off (List.mem_cons_self _ _)
      have harith : off + 8 + (data.length - (off + 8)) = data.length := by omega
      simp only [harith]
    | cons off2 t' =>
      rw [fallenFallbackSegs] at hseg
      rcases List.mem_cons.mp hseg with rfl | hmem
      · have hle : off + 8 ≤ off2 := (List.chain'_cons.mp hchain).1
        have harith : off + 8 + (off2 - (off + 8)) = off2 := by omega
        simp only [harith]
      · exact ih (fun x hx => hbound x (List.mem_cons_of_mem _ hx))
          (List.chain'_cons.mp hchain).2 seg hmem

theorem scan_fallen_wf (data : Bytes) :
    ∀ seg ∈ scan_fallen_segments data,
      seg.2.2 = pySlice data seg.1 (seg.1 + seg.2.1) := by
  intro seg hseg
  rw [scan_fallen_segments] at hseg
  by_cases hmagic : data.take 6 ≠ FALLEN_MAGIC
  · rw [if_pos hmagic] at hseg; exact absurd hseg (List.not_mem_nil _)
  · rw [if_neg hmagic] at hseg
    by_cases htable : fallenTableSegs data ≠ []
    · rw [if_pos htable] at hseg
      rw [fallenTableSegs] at hseg
      by_cases h24 : 24 ≤ data.length
      · rw [if_pos h24] at hseg
        by_cases hguard : 24 ≤ readU32le data 8 ∧ readU32le data 8 ≤ 65536 ∧
            readU32le data 16 ≤ 65536 ∧
            readU32le data 8 + readU32le data 16 * 16 ≤ data.length
        · rw [if_pos hguard] at hseg
          rw [List.mem_filterMap] at hseg
          obtain ⟨i, -, heq⟩ := hseg
          dsimp only at heq
          split_ifs at heq
          injection heq with heq'
          rw [← heq']
        · rw [if_neg hguard] at hseg; exact absurd hseg (List.not_mem_nil _)
      · rw [if_neg h24] at hseg; exact absurd hseg (List.not_mem_nil _)
    · rw [if_neg htable] at hseg
      have hchain : List.Chain' (fun a b => a + 8 ≤ b)
          (scanPositions data FALLEN_SENTINEL) := by
        have h := scanPosGo_chain data FALLEN_SENTINEL (data.length + 1) 0
        rw [scanPositions]
        refine h.imp ?_
        intro a b hab
        have h8 : FALLEN_SENTINEL.length = 8 := by decide
        omega
      have hbound : ∀ off ∈ scanPositions data FALLEN_SENTINEL,
          off + 8 ≤ data.length := by
        intro off hoff
        rw [scanPositions] at hoff
        have hm := scanPosGo_mem data FALLEN_SENTINEL (data.length + 1) 0 off hoff
        have hspec := matchAt_spec data FALLEN_SENTINEL off (by decide) hm.2.2
        have h8 : FALLEN_SENTINEL.length = 8 := by decide
        omega
      exact fallback_wf data (scanPositions data FALLEN_SENTINEL) hbound hchain
        seg hseg

/-! ## C1: every extracted block can be found again, unchanged -/

theorem extractFallenGo_spec (data : Bytes) :
    ∀ (segs : List (Nat × Nat × Bytes)) (idx : Nat) (bis : List BlockInfo)
      (fm : FileMap),
      extractFallenGo data segs idx = some (bis, fm) →
      (∀ seg ∈ segs, seg.2.2 = pySlice data seg.1 (seg.1 + seg.2.1)) →
      ∀ b ∈ bis,
        idx ≤ b.index ∧
        (∃ off ext, b.out_name = asciiOf "blocks/" ++ blockName b.index off ext) ∧
        b.region_sha1 = sha1Hex (pySlice data b.offset (b.offset + b.stored_len)) ∧
        ∃ c, lookupFile fm b.out_name = some c ∧ b.file_sha1 = sha1Hex c := by
  intro segs
  induction segs with
  | nil =>
    intro idx bis fm h _ b hb
    rw [extractFallenGo] at h
    injection h with h'
    injection h' with h1 h2
    rw [← h1] at hb
    exact absurd hb (List.not_mem_nil _)
  | cons seg rest ih =>
    intro idx bis fm h hwf b hb
    rw [extractFallenGo] at h
    cases hseg : extractFallenSeg idx seg with
    | none => simp only [hseg] at h; exact Option.noConfusion h
    | some pe =>
      obtain ⟨bi, entries⟩ := pe
      simp only [hseg, Option.map_eq_some'] at h
      obtain ⟨⟨bis', fm'⟩, hrec, heq⟩ := h
      obtain ⟨rfl, rfl⟩ : bi :: bis' = bis ∧ entries ++ fm' = fm := by
        injection heq with h1 h2
        exact ⟨h1, h2⟩
      obtain ⟨hidx, hoff, hlen, hreg, ext, fb, hname, hfsha, hent⟩ :=
        extractFallenSeg_spec idx seg bi entries hseg
      rcases List.mem_cons.mp hb with rfl | hmem
      · refine ⟨by omega, ⟨seg.1, ext, by rw [hidx]; exact hname⟩, ?_, fb, ?_, hfsha⟩
        · rw [hreg, hwf seg (List.mem_cons_self _ _), hoff, hlen]
        · rw [hent]
          simp only [List.cons_append, List.nil_append]
          rw [lookupFile_cons]
          rw [if_neg (by rw [hname]; exact origPath_ne_blockPath idx seg.1 idx seg.1 ext)]
          rw [lookupFile_cons, if_pos rfl]
      · obtain ⟨hge, ⟨off', ext', hshape⟩, hreg', c, hlook, hfsha'⟩ :=
          ih (idx + 1) bis' fm' hrec
            (fun s hs => hwf s (List.mem_cons_of_mem _ hs)) b hmem
        refine ⟨by omega, ⟨off', ext', hshape⟩, hreg', c, ?_, hfsha'⟩
        rw [hent, lookupFile_append_fresh _ _ _ ?_]
        · exact hlook
        · intro p hp
          rcases List.mem_cons.mp hp with rfl | hp'
          · rw [hshape]
            exact origPath_ne_blockPath idx seg.1 b.index off' ext'
          · rcases List.mem_singleton.mp hp' with rfl
            rw [hname, hshape]
            exact blockPath_inj idx b.index seg.1 off' ext ext' (by omega)

theorem extractH4siGo_spec (data : Bytes) :
    ∀ (segs : List (Nat × Nat × Bytes)) (idx : Nat) (bis : List BlockInfo)
      (fm : FileMap),
      extractH4siGo data segs idx = some (bis, fm) →
      ∀ b ∈ bis,
        idx ≤ b.index ∧
        (∃ off ext, b.out_name = asciiOf "blocks/" ++ blockName b.index off ext) ∧
        b.region_sha1 = sha1Hex (pySlice data b.offset (b.offset + b.stored_len)) ∧
        ∃ c, lookupFile fm b.out_name = some c ∧ b.file_sha1 = sha1Hex c := by
  intro segs
  induction segs with
  | nil =>
    intro idx bis fm h b hb
    rw [extractH4siGo] at h
    injection h with h'
    injection h' with h1 h2
    rw [← h1] at hb
    exact absurd hb (List.not_mem_nil _)
  | cons seg rest ih =>
    intro idx bis fm h b hb
    rw [extractH4siGo] at h
    cases hseg : extractH4siSeg data idx seg with
    | abort => simp only [hseg] at h; exact Option.noConfusion h
    | skip =>
      simp only [hseg] at h
      exact ih idx bis fm h b hb
    | ok bi entries =>
      simp only [hseg, Option.map_eq_some'] at h
      obtain ⟨⟨bis', fm'⟩, hrec, heq⟩ := h
      obtain ⟨rfl, rfl⟩ : bi :: bis' = bis ∧ entries ++ fm' = fm := by
        injection heq with h1 h2
        exact ⟨h1, h2⟩
      obtain ⟨hidx, hoff, hlen, hreg, ext, fb, hname, hfsha, hent⟩ :=
        extractH4siSeg_spec data idx seg bi entries hseg
      rcases List.mem_cons.mp hb with rfl | hmem
      · refine ⟨by omega, ⟨seg.1, ext, by rw [hidx]; exact hname⟩, ?_, fb, ?_, hfsha⟩
        · rw [hreg, hoff, hlen]
        · rw [hent]
          simp only [List.cons_append, List.nil_append]
          rw [lookupFile_cons]
          rw [if_neg (by rw [hname]; exact origPath_ne_blockPath idx seg.1 idx seg.1 ext)]
          rw [lookupFile_cons, if_pos rfl]
      · obtain ⟨hge, ⟨off', ext', hshape⟩, hreg', c, hlook, hfsha'⟩ :=
          ih (idx + 1) bis' fm' hrec b hmem
        refine ⟨by omega, ⟨off', ext', hshape⟩, hreg', c, ?_, hfsha'⟩
        rw [hent, lookupFile_append_fresh _ _ _ ?_]
        · exact hlook
        · intro p hp
          rcases List.mem_cons.mp hp with rfl | hp'
          · rw [hshape]
            exact origPath_ne_blockPath idx seg.1 b.index off' ext'
          · rcases List.mem_singleton.mp hp' with rfl
            rw [hname, hshape]
            exact blockPath_inj idx b.index seg.1 off' ext ext' (by omega)

/-! ## C1: the repack loop skips every untouched block -/

theorem repackGo_all_skip (container : String) (base : Bytes) (dir : FileMap) :
    ∀ (blocks : List BlockInfo) (st : RepackState),
      (∀ b ∈ blocks,
        b.region_sha1 = sha1Hex (pySlice base b.offset (b.offset + b.stored_len)) ∧
        ∃ c, lookupFile dir b.out_name = some c ∧ b.file_sha1 = sha1Hex c) →
      repackGo container base dir blocks st =
        .ok ⟨st.out, st.ok, st.fail, st.skipped + blocks.length, st.warnings⟩ := by
  intro blocks
  induction blocks with
  | nil => intro st _; rfl
  | cons b rest ih =>
    intro st hall
    obtain ⟨hreg, c, hlook, hfsha⟩ := hall b (List.mem_cons_self _ _)
    have hstep : repackStep container base dir st b =
        .ok { st with skipped := st.skipped + 1 } := by
      rw [repackStep]
      rw [if_neg (by simp [regionValid, hreg])]
      simp only [hlook]
      rw [if_pos (by
        simp [isUntouched, hfsha]
        exact sha1Hex_ne_nil c)]
    rw [repackGo]
    simp only [hstep]
    rw [ih _ (fun x hx => hall x (List.mem_cons_of_mem _ hx))]
    have harith : st.skipped + 1 + rest.length = st.skipped + (rest.length + 1) := by
      omega
    simp only [List.length_cons, harith]

/-- C1: for every base file that extracts cleanly, repacking the untouched
extraction reproduces the base file byte-for-byte — every manifest block
passes its region checksum, is found with its recorded file checksum
intact, and is classified SKIP, so the copied base buffer is returned
unchanged with zero blocks written, zero failures and no warnings. -/
theorem extract_repack_roundtrip (data : Bytes) (man : Manifest) (dir : FileMap)
    (hext : extract data = some (man, dir)) :
    repack data man dir = .ok ⟨data, 0, 0, man.blocks.length, []⟩ := by
  rw [extract] at hext
  by_cases hmagic : data.take 6 = FALLEN_MAGIC
  · rw [if_pos hmagic, Option.map_eq_some'] at hext
    obtain ⟨⟨bis, fm⟩, hgo, heq⟩ := hext
    obtain ⟨hman, rfl⟩ :
        ({ file_size := data.length, base_sig := sha1Hex data,
           container := "fallen", blocks := bis } : Manifest) = man ∧ fm = dir := by
      injection heq with h1 h2
      exact ⟨h1, h2⟩
    subst hman
    have hblocks := extractFallenGo_spec data (scan_fallen_segments data) 0 bis fm
      hgo (scan_fallen_wf data)
    rw [repack]
    rw [if_neg (by simp)]
    rw [repackGo_all_skip "fallen" data fm bis ⟨data, 0, 0, 0, []⟩
      (fun b hb => ⟨(hblocks b hb).2.2.1, (hblocks b hb).2.2.2⟩)]
    simp
  · rw [if_neg hmagic, Option.map_eq_some'] at hext
    obtain ⟨⟨bis, fm⟩, hgo, heq⟩ := hext
    obtain ⟨hman, rfl⟩ :
        ({ file_size := data.length, base_sig := sha1Hex data,
           container := "h4si", blocks := bis } : Manifest) = man ∧ fm = dir := by
      injection heq with h1 h2
      exact ⟨h1, h2⟩
    subst hman
    have hblocks := extractH4siGo_spec data (scan_blocks data) 0 bis fm hgo
    rw [repack]
    rw [if_neg (by simp)]
    rw [repackGo_all_skip "h4si" data fm bis ⟨data, 0, 0, 0, []⟩
      (fun b hb => ⟨(hblocks b hb).2.2.1, (hblocks b hb).2.2.2⟩)]
    simp

/-- Witness for C1: extracting and immediately repacking the concrete
one-block `h4si` file `c1Data` returns it byte-for-byte with its single
block skipped. -/
theorem extract_repack_roundtrip_witness :
    extract c1Data = some (c1Ext.1, c1Ext.2) ∧
    c1Ext.1.blocks.length = 1 ∧
    repack c1Data c1Ext.1 c1Ext.2 = .ok ⟨c1Data, 0, 0, c1Ext.1.blocks.length, []⟩ := by
  have h1 : extract c1Data = some (c1Ext.1, c1Ext.2) := by decide
  exact ⟨h1, by decide, extract_repack_roundtrip c1Data c1Ext.1 c1Ext.2 h1⟩

end CarxSave
